import Mathlib

/-!
Verification development for the benser rendering pipeline
(style resolution, block layout, painting, software rasterization).

The Rust sources are embedded shallowly:
* `f32` values are modelled as rationals (`ℚ`);
* `HashMap<String, Value>` is modelled as a function `String → Option Value`
  (matching insert/get semantics);
* `HashSet<&str>` membership is modelled as list membership of the
  space-separated split;
* panics are modelled by `Option` (a panic is `none`);
* `Vec<T>` is `List T`.

Modules embedded: `benser/src/css/mod.rs`, `html/src/dom.rs`,
`benser/src/style.rs`, `benser/src/layout/{mod,dimensions,edge_sizes}.rs`,
`paint/src/canvas.rs`.  The files `benser/src/layout/rect.rs`,
`benser/src/layout/layout_box.rs` and `paint/src/lib.rs` are not part of
the provided sources; the definitions that come from them are modelled
from the specification and marked `Modelled from the spec` below.
-/

/-! ## CSS data model (benser/src/css/mod.rs, css/color.rs) -/

/-- Color from css/color.rs: four `u8` channels, modelled as naturals. -/
structure Color where
  r : ℕ
  g : ℕ
  b : ℕ
  a : ℕ
deriving DecidableEq, Repr

/-- Color::new. -/
def Color.new (r g b a : ℕ) : Color := ⟨r, g, b, a⟩

/-- Unit from css/mod.rs (named `CssUnit` here because `Unit` is taken in Lean). -/
inductive CssUnit where
  | Px : CssUnit
deriving DecidableEq, Repr

/-- Value from css/mod.rs; `f32` lengths are modelled as rationals. -/
inductive Value where
  | Keyword : String → Value
  | Length : ℚ → CssUnit → Value
  | ColorValue : Color → Value
deriving DecidableEq, Repr

/-- Value::to_px: the size of a length in px, or zero for non-lengths. -/
def Value.to_px : Value → ℚ
  | .Length f .Px => f
  | _ => 0

/-- SimpleSelector from css/mod.rs. -/
structure SimpleSelector where
  tag_name : Option String
  id : Option String
  class' : List String
deriving DecidableEq, Repr

/-- Selector from css/mod.rs (one variant). -/
inductive Selector where
  | Simple : SimpleSelector → Selector
deriving DecidableEq, Repr

/-- Declaration from css/mod.rs. -/
structure Declaration where
  name : String
  value : Value
deriving DecidableEq, Repr

/-- Rule from css/mod.rs. -/
structure Rule where
  selectors : List Selector
  declarations : List Declaration
deriving DecidableEq, Repr

/-- Stylesheet from css/mod.rs. -/
structure Stylesheet where
  rules : List Rule
deriving DecidableEq, Repr

/-- Specificity type alias `(usize, usize, usize)` from css/mod.rs. -/
abbrev Specificity := ℕ × ℕ × ℕ

/-- Selector::specificity: `(id count, class count, tag count)`;
`Option::iter().count()` is 1 for `Some` and 0 for `None`. -/
def Selector.specificity : Selector → Specificity
  | .Simple simple =>
    (if simple.id.isSome then 1 else 0,
     simple.class'.length,
     if simple.tag_name.isSome then 1 else 0)

/-- Rust's derived `Ord` on the 3-tuple `Specificity` is lexicographic;
`specLe a b` is `a.cmp(&b) != Greater`, i.e. lexicographic `a ≤ b`. -/
def specLe (a b : Specificity) : Bool :=
  decide (a.1 < b.1) ||
    (decide (a.1 = b.1) &&
      (decide (a.2.1 < b.2.1) || (decide (a.2.1 = b.2.1) && decide (a.2.2 ≤ b.2.2))))

/-! ## DOM (html/src/dom.rs) -/

/-- ElementData from html/src/dom.rs.  The `AttrMap` hash map is modelled
as an association list with unique keys looked up by first match. -/
structure ElementData where
  tag_name : String
  attributes : List (String × String)
deriving DecidableEq, Repr

/-- ElementData::id: `attributes.get("id")`. -/
def ElementData.id (e : ElementData) : Option String :=
  e.attributes.lookup "id"

/-- Rust `str::split(c)`: splits at every occurrence of `c`, keeping empty
pieces; the empty string yields `[""]`. -/
def splitChar (sep : Char) : List Char → List String
  | [] => [""]
  | c :: rest =>
    if c = sep then "" :: splitChar sep rest
    else
      match splitChar sep rest with
      | s :: tail => String.mk (c :: s.data) :: tail
      | [] => [String.mk [c]]

/-- ElementData::classes: the space-separated pieces of the `class`
attribute (the `HashSet` is modelled by the list of pieces; only
membership is ever used). -/
def ElementData.classes (e : ElementData) : List String :=
  match e.attributes.lookup "class" with
  | some classlist => splitChar ' ' classlist.data
  | none => []

/-- NodeType from html/src/dom.rs. -/
inductive NodeType where
  | Text : String → NodeType
  | Element : ElementData → NodeType
deriving DecidableEq, Repr

/-- Node from html/src/dom.rs (a tree; `structure` cannot be recursive,
so it is an inductive with accessor functions). -/
inductive Node where
  | mk (children : List Node) (node_type : NodeType)

/-- Field accessor for Node.children. -/
def Node.children : Node → List Node
  | .mk c _ => c

/-- Field accessor for Node.node_type. -/
def Node.node_type : Node → NodeType
  | .mk _ t => t

/-! ## Style resolution (benser/src/style.rs) -/

/-- PropertyMap `HashMap<String, Value>` modelled by its lookup function. -/
def PropertyMap : Type := String → Option Value

/-- The empty property map (`HashMap::new()`). -/
def PropertyMap.empty : PropertyMap := fun _ => none

/-- HashMap::insert: overwrite the binding for `name`. -/
def PropertyMap.insert (m : PropertyMap) (name : String) (v : Value) : PropertyMap :=
  fun n => if n = name then some v else m n

/-- matches_simple_selector from style.rs: each present component must be
satisfied, otherwise the selector is rejected. -/
def matches_simple_selector (elem : ElementData) (selector : SimpleSelector) : Bool :=
  if selector.tag_name.any (fun name => elem.tag_name != name) then false
  else if selector.id.any (fun i => elem.id != some i) then false
  else if selector.class'.any (fun c => !(elem.classes.contains c)) then false
  else true

/-- matches from style.rs. -/
def matches' (elem : ElementData) (selector : Selector) : Bool :=
  match selector with
  | .Simple simple_selector => matches_simple_selector elem simple_selector

/-- MatchedRule type alias from style.rs. -/
abbrev MatchedRule := Specificity × Rule

/-- match_rule from style.rs: find the first (highest-specificity)
matching selector. -/
def match_rule (elem : ElementData) (rule : Rule) : Option MatchedRule :=
  (rule.selectors.find? (fun selector => matches' elem selector)).map
    (fun selector => (selector.specificity, rule))

/-- matching_rules from style.rs. -/
def matching_rules (elem : ElementData) (stylesheet : Stylesheet) : List MatchedRule :=
  stylesheet.rules.filterMap (fun rule => match_rule elem rule)

/-- specified_values from style.rs: sort the matched rules ascending by
specificity with a stable sort (`Vec::sort_by` with `Specificity::cmp`),
then apply all declarations in order, later writes overwriting earlier
ones. -/
def specified_values (elem : ElementData) (stylesheet : Stylesheet) : PropertyMap :=
  let rules := (matching_rules elem stylesheet).mergeSort (fun a b => specLe a.1 b.1)
  rules.foldl
    (fun values r =>
      r.2.declarations.foldl (fun vs d => vs.insert d.name d.value) values)
    PropertyMap.empty

/-- StyledNode from style.rs (a tree, hence an inductive). -/
inductive StyledNode where
  | mk (node : Node) (specified_values : PropertyMap) (children : List StyledNode)

/-- Field accessor for StyledNode.node. -/
def StyledNode.node : StyledNode → Node
  | .mk n _ _ => n

/-- Field accessor for StyledNode.specified_values. -/
def StyledNode.props : StyledNode → PropertyMap
  | .mk _ m _ => m

/-- Alias with the source field name. -/
def StyledNode.specified_values (n : StyledNode) : PropertyMap := n.props

/-- Field accessor for StyledNode.children. -/
def StyledNode.children : StyledNode → List StyledNode
  | .mk _ _ c => c

/-- StyledNode::value. -/
def StyledNode.value (n : StyledNode) (name : String) : Option Value :=
  n.props name

/-- Display from layout/mod.rs. -/
inductive Display where
  | Inline : Display
  | Block : Display
  | None : Display
deriving DecidableEq, Repr

/-- StyledNode::display: the `display` property, defaulting to inline. -/
def StyledNode.display (n : StyledNode) : Display :=
  match n.value "display" with
  | some (.Keyword s) =>
    if s = "block" then .Block
    else if s = "none" then .None
    else .Inline
  | _ => .Inline

/-- StyledNode::lookup: property `name`, else `fallback_name`, else `default`. -/
def StyledNode.lookup (n : StyledNode) (name fallback_name : String) (default : Value) : Value :=
  (n.value name).getD ((n.value fallback_name).getD default)

mutual

/-- style_tree from style.rs: style every node; children mirror the
document's child order with no filtering. -/
def style_tree (root : Node) (stylesheet : Stylesheet) : StyledNode :=
  match root with
  | .mk children node_type =>
    .mk (.mk children node_type)
      (match node_type with
       | .Element elem => specified_values elem stylesheet
       | _ => PropertyMap.empty)
      (styleChildren children stylesheet)

/-- The recursion of style_tree over the `children` vector. -/
def styleChildren : List Node → Stylesheet → List StyledNode
  | [], _ => []
  | child :: rest, stylesheet => style_tree child stylesheet :: styleChildren rest stylesheet

end

/-! ## Layout geometry (benser/src/layout/) -/

/-- Rect from layout/rect.rs (fields per the spec's data model; `f32` as ℚ). -/
structure Rect where
  x : ℚ
  y : ℚ
  width : ℚ
  height : ℚ
deriving DecidableEq, Repr

/-- EdgeSizes from layout/edge_sizes.rs. -/
structure EdgeSizes where
  left : ℚ
  right : ℚ
  top : ℚ
  bottom : ℚ
deriving DecidableEq, Repr

/-- Dimensions from layout/dimensions.rs. -/
structure Dimensions where
  content : Rect
  padding : EdgeSizes
  border : EdgeSizes
  margin : EdgeSizes
deriving DecidableEq, Repr

/-- The all-zero Rect (`Rect::default()`). -/
def Rect.default0 : Rect := ⟨0, 0, 0, 0⟩

/-- The all-zero EdgeSizes (`EdgeSizes::default()`). -/
def EdgeSizes.default0 : EdgeSizes := ⟨0, 0, 0, 0⟩

/-- The all-zero Dimensions (`Dimensions::default()`). -/
def Dimensions.default0 : Dimensions := ⟨Rect.default0, EdgeSizes.default0, EdgeSizes.default0, EdgeSizes.default0⟩

/-- Modelled from the spec: `Rect::expanded_by` lives in
benser/src/layout/rect.rs, which is not among the provided sources.
Spec §3: "padding-box = content expanded by padding", §8: the expansion is
"exactly equal to the literal sum of each edge's offsets": the origin
moves left/up by the left/top offsets and the extent grows by the sum of
the two offsets on each axis. -/
def Rect.expanded_by (r : Rect) (edge : EdgeSizes) : Rect :=
  ⟨r.x - edge.left, r.y - edge.top,
   r.width + edge.left + edge.right, r.height + edge.top + edge.bottom⟩

/-- Dimensions::padding_box from layout/dimensions.rs. -/
def Dimensions.padding_box (d : Dimensions) : Rect :=
  d.content.expanded_by d.padding

/-- Dimensions::border_box from layout/dimensions.rs. -/
def Dimensions.border_box (d : Dimensions) : Rect :=
  d.padding_box.expanded_by d.border

/-- Dimensions::margin_box from layout/dimensions.rs. -/
def Dimensions.margin_box (d : Dimensions) : Rect :=
  d.border_box.expanded_by d.margin

/-- BoxType from layout/mod.rs (the styled-node reference is stored by value). -/
inductive BoxType where
  | BlockNode : StyledNode → BoxType
  | InlineNode : StyledNode → BoxType
  | AnonymousBlock : BoxType

/-- LayoutBox (declared in layout/mod.rs, definition in the missing
layout/layout_box.rs; fields per spec §3: box type, dimensions, children). -/
inductive LayoutBox where
  | mk (dimensions : Dimensions) (box_type : BoxType) (children : List LayoutBox)

/-- Field accessor for LayoutBox.dimensions. -/
def LayoutBox.dimensions : LayoutBox → Dimensions
  | .mk d _ _ => d

/-- Field accessor for LayoutBox.box_type. -/
def LayoutBox.box_type : LayoutBox → BoxType
  | .mk _ t _ => t

/-- Field accessor for LayoutBox.children. -/
def LayoutBox.children : LayoutBox → List LayoutBox
  | .mk _ _ c => c

/-- Modelled from the spec: `LayoutBox::new` (missing layout/layout_box.rs).
A fresh box has default (zero) dimensions and no children. -/
def LayoutBox.new (box_type : BoxType) : LayoutBox :=
  .mk Dimensions.default0 box_type []

/-- Whether a box is an anonymous block. -/
def LayoutBox.isAnonymous : LayoutBox → Bool
  | .mk _ .AnonymousBlock _ => true
  | _ => false

/-- Modelled from the spec: the effect of
`parent.get_inline_container().children.push(child)` (missing
layout/layout_box.rs) on the parent's child list.  Spec §4.2: an
inline-display child "is appended into an 'anonymous block' container
that is lazily created as the last child whenever needed and reused for
consecutive inline runs"; an inline parent holds inline children
directly (it is its own inline container). -/
def pushInline (parent_type : BoxType) (acc : List LayoutBox) (child : LayoutBox) : List LayoutBox :=
  match parent_type with
  | .BlockNode _ =>
    match acc.getLast? with
    | some last =>
      if last.isAnonymous then
        acc.dropLast ++ [.mk last.dimensions last.box_type (last.children ++ [child])]
      else acc ++ [.mk Dimensions.default0 .AnonymousBlock [child]]
    | none => acc ++ [.mk Dimensions.default0 .AnonymousBlock [child]]
  | _ => acc ++ [child]

mutual

/-- build_layout_tree from layout/mod.rs: the root box matches the node's
display; a `Display::None` node is a panic (modelled as `none`). Children:
block children are attached directly, inline children go through the
inline container, `display: none` children are skipped. -/
def build_layout_tree : StyledNode → Option LayoutBox
  | .mk nd pm children =>
    match (StyledNode.mk nd pm children).display with
    | .None => none
    | .Block =>
      (buildChildren (BoxType.BlockNode (.mk nd pm children)) children []).map
        (fun kids => LayoutBox.mk Dimensions.default0 (BoxType.BlockNode (.mk nd pm children)) kids)
    | .Inline =>
      (buildChildren (BoxType.InlineNode (.mk nd pm children)) children []).map
        (fun kids => LayoutBox.mk Dimensions.default0 (BoxType.InlineNode (.mk nd pm children)) kids)

/-- The child loop of build_layout_tree, accumulating the root's children. -/
def buildChildren (parent_type : BoxType) : List StyledNode → List LayoutBox → Option (List LayoutBox)
  | [], acc => some acc
  | child :: rest, acc =>
    match child.display with
    | .Block =>
      match build_layout_tree child with
      | some cb => buildChildren parent_type rest (acc ++ [cb])
      | none => none
    | .Inline =>
      match build_layout_tree child with
      | some cb => buildChildren parent_type rest (pushInline parent_type acc cb)
      | none => none
    | .None => buildChildren parent_type rest acc

end

/-- The property map a box consults during geometry solving: block and
inline boxes read their styled node's specified values, anonymous boxes
have none (spec §4.2: "margin/border/padding forced to zero", which the
lookup defaults provide). -/
def BoxType.styleProps : BoxType → PropertyMap
  | .BlockNode sn => sn.props
  | .InlineNode sn => sn.props
  | .AnonymousBlock => PropertyMap.empty

/-- Property lookup against a raw property map (StyledNode::lookup). -/
def PropertyMap.lookup (m : PropertyMap) (name fallback_name : String) (default : Value) : Value :=
  (m name).getD ((m fallback_name).getD default)

/-- Modelled from the spec: `calculate_block_width` (missing
layout/layout_box.rs), spec §4.2 step 1.  Resolve `width` (explicit or
auto) and the horizontal margins (explicit or auto) against the containing
block's content width; border defaults to zero ("currently border
defaults to 0; only padding/margin/width participate in the 1.0
policy").  If `width` is auto it absorbs all remaining space, clamped to
zero if the remainder is negative (any auto margin becoming zero); if
`width` is explicit, leftover space is distributed equally across auto
margins, and with no auto margin the rightmost margin absorbs the
overflow. -/
def calculate_block_width (style : PropertyMap) (d : Dimensions) (containing_block : Dimensions) : Dimensions :=
  let auto := Value.Keyword "auto"
  let zero := Value.Length 0 .Px
  let width := (style "width").getD auto
  let margin_left := style.lookup "margin-left" "margin" zero
  let margin_right := style.lookup "margin-right" "margin" zero
  let border_left := zero
  let border_right := zero
  let padding_left := style.lookup "padding-left" "padding" zero
  let padding_right := style.lookup "padding-right" "padding" zero
  let total := [margin_left, margin_right, border_left, border_right,
    padding_left, padding_right, width].foldl (fun s v => s + v.to_px) 0
  let margin_left :=
    if width ≠ auto ∧ total > containing_block.content.width ∧ margin_left = auto
    then zero else margin_left
  let margin_right :=
    if width ≠ auto ∧ total > containing_block.content.width ∧ margin_right = auto
    then zero else margin_right
  let underflow := containing_block.content.width - total
  let wmm : Value × Value × Value :=
    if width = auto then
      let margin_left := if margin_left = auto then zero else margin_left
      let margin_right := if margin_right = auto then zero else margin_right
      if underflow ≥ 0 then (Value.Length underflow .Px, margin_left, margin_right)
      else (Value.Length 0 .Px,
            margin_left, Value.Length (margin_right.to_px + underflow) .Px)
    else if margin_left = auto ∧ margin_right = auto then
      (width, Value.Length (underflow / 2) .Px, Value.Length (underflow / 2) .Px)
    else if margin_left = auto then (width, Value.Length underflow .Px, margin_right)
    else if margin_right = auto then (width, margin_left, Value.Length underflow .Px)
    else (width, margin_left, Value.Length (margin_right.to_px + underflow) .Px)
  { d with
    content := { d.content with width := wmm.1.to_px }
    padding := { d.padding with left := padding_left.to_px, right := padding_right.to_px }
    border := { d.border with left := border_left.to_px, right := border_right.to_px }
    margin := { d.margin with left := wmm.2.1.to_px, right := wmm.2.2.to_px } }

/-- Modelled from the spec: `calculate_block_position` (missing
layout/layout_box.rs), spec §4.2 step 2: resolve vertical margins and
paddings (border zero), then `x` = containing x plus the left offsets and
`y` = containing y plus the accumulated containing content height plus
the top offsets. -/
def calculate_block_position (style : PropertyMap) (d : Dimensions) (containing_block : Dimensions) : Dimensions :=
  let zero := Value.Length 0 .Px
  let margin_top := (style.lookup "margin-top" "margin" zero).to_px
  let margin_bottom := (style.lookup "margin-bottom" "margin" zero).to_px
  let padding_top := (style.lookup "padding-top" "padding" zero).to_px
  let padding_bottom := (style.lookup "padding-bottom" "padding" zero).to_px
  let d := { d with
    margin := { d.margin with top := margin_top, bottom := margin_bottom }
    border := { d.border with top := 0, bottom := 0 }
    padding := { d.padding with top := padding_top, bottom := padding_bottom } }
  { d with content := { d.content with
      x := containing_block.content.x + d.margin.left + d.border.left + d.padding.left,
      y := containing_block.content.y + containing_block.content.height
            + d.margin.top + d.border.top + d.padding.top } }

/-- Modelled from the spec: `calculate_block_height` (missing
layout/layout_box.rs), spec §4.2 step 4: an explicit pixel `height`
overrides the content-driven height accumulated from the children. -/
def calculate_block_height (style : PropertyMap) (d : Dimensions) : Dimensions :=
  match style "height" with
  | some (.Length h .Px) => { d with content := { d.content with height := h } }
  | _ => d

mutual

/-- Modelled from the spec: `LayoutBox::layout` (missing
layout/layout_box.rs), spec §4.2: width first (top-down), then position,
then children (each against this box's content box, accumulating content
height), then height (bottom-up).  Inline boxes perform no geometry pass
of their own. -/
def LayoutBox.layout (box : LayoutBox) (containing_block : Dimensions) : LayoutBox :=
  match box with
  | .mk d0 bt kids =>
    match bt with
    | .InlineNode _ => .mk d0 bt kids
    | _ =>
      let style := bt.styleProps
      let d1 := calculate_block_width style d0 containing_block
      let d2 := calculate_block_position style d1 containing_block
      let kd := layoutChildren kids d2
      let d4 := calculate_block_height style kd.2
      .mk d4 bt kd.1

/-- The child loop of `layout_block_children`: each child is laid out
against the parent's dimensions so far, whose content height then grows
by the child's margin-box height. -/
def layoutChildren : List LayoutBox → Dimensions → (List LayoutBox × Dimensions)
  | [], d => ([], d)
  | child :: rest, d =>
    let c := child.layout d
    let d' := { d with content := { d.content with
        height := d.content.height + c.dimensions.margin_box.height } }
    let rd := layoutChildren rest d'
    (c :: rd.1, rd.2)

end

/-- layout_tree from layout/mod.rs: reset the containing block's content
height to zero, build the box tree (panic modelled as `none`), then run
the geometry pass. -/
def layout_tree (node : StyledNode) (containing_block : Dimensions) : Option LayoutBox :=
  let containing_block := { containing_block with
    content := { containing_block.content with height := 0 } }
  match build_layout_tree node with
  | some root_box => some (root_box.layout containing_block)
  | none => none

/-! ## Painting (paint/src/canvas.rs) -/

/-- DisplayCommand (declared in the missing paint/src/lib.rs; spec §3:
"tagged variant, currently SolidColor(Color, Rect)"). -/
inductive DisplayCommand where
  | SolidColor : Color → Rect → DisplayCommand

/-- Canvas from paint/src/canvas.rs. -/
structure Canvas where
  pixels : List Color
  width : ℕ
  height : ℕ

/-- Rust `f32::clamp(lo, hi)`. -/
def clampQ (v lo hi : ℚ) : ℚ :=
  if v < lo then lo else if v > hi then hi else v

/-- Rust `f32 as usize` on a clamped non-negative value: truncation
toward zero, i.e. the floor, as a natural number. -/
def qToUsize (v : ℚ) : ℕ := (⌊v⌋).toNat

/-- Canvas::new: `width * height` pixels, all opaque white. -/
def Canvas.new (width height : ℕ) : Canvas :=
  ⟨List.replicate (width * height) (Color.new 255 255 255 255), width, height⟩

/-- Canvas::paint_item: clip the rectangle to the canvas boundaries, then
overwrite every covered pixel with the command's color (no alpha
blending).  The row-major double loop is modelled as nested folds over
`List.range'` with `List.set` for the assignment `pixels[x + y*width] = color`. -/
def Canvas.paint_item (canvas : Canvas) (item : DisplayCommand) : Canvas :=
  match item with
  | .SolidColor color rect =>
    let x0 := qToUsize (clampQ rect.x 0 canvas.width)
    let y0 := qToUsize (clampQ rect.y 0 canvas.height)
    let x1 := qToUsize (clampQ (rect.x + rect.width) 0 canvas.width)
    let y1 := qToUsize (clampQ (rect.y + rect.height) 0 canvas.height)
    let pixels :=
      (List.range' y0 (y1 - y0)).foldl
        (fun px y =>
          (List.range' x0 (x1 - x0)).foldl
            (fun px x => px.set (x + y * canvas.width) color) px)
        canvas.pixels
    ⟨pixels, canvas.width, canvas.height⟩

/-! ## Specification-side definitions

These definitions follow the words of the specification (not the code);
the theorems below compare them with the embedded source functions. -/

/-- Whether a rule carries at least one declaration for property `k`. -/
def Rule.hasDecl (r : Rule) (k : String) : Bool :=
  r.declarations.any (fun d => d.name == k)

/-- The value of the last declaration for `k` in a declaration list. -/
def lastDeclValue (k : String) (ds : List Declaration) : Option Value :=
  ds.foldl (fun acc d => if d.name = k then some d.value else acc) none

/-- Spec cascade order (§3 of the spec / glossary): a candidate `q` beats
a candidate `p` when it has strictly higher specificity, or equal
specificity and a later position in the stylesheet. -/
def beats (p q : ℕ × MatchedRule) : Bool :=
  (specLe p.2.1 q.2.1 && !specLe q.2.1 p.2.1) || (p.2.1 == q.2.1 && p.1 < q.1)

/-- Modelled from the spec (§4.1 steps 1–3): the winning matched rule for
property `k` — among the matched rules carrying a declaration for `k`,
the one of highest specificity, and among equal specificities the
latest in stylesheet order. -/
def cascadeWinner (k : String) (matched : List MatchedRule) : Option (ℕ × MatchedRule) :=
  (matched.enum.filter (fun p => p.2.2.hasDecl k)).foldl
    (fun acc p =>
      match acc with
      | none => some p
      | some q => if beats q p then some p else some q)
    none

/-- Modelled from the spec: the cascade's final value for property `k` —
the last declaration for `k` inside the winning matched rule. -/
def cascadeValue (k : String) (matched : List MatchedRule) : Option Value :=
  (cascadeWinner k matched).bind (fun p => lastDeclValue k p.2.2.declarations)

/-! ## Containment order on rectangles -/

/-- Rect `r` is contained in rect `s` (as regions of the plane). -/
def Rect.insideOf (r s : Rect) : Prop :=
  s.x ≤ r.x ∧ r.x + r.width ≤ s.x + s.width ∧
  s.y ≤ r.y ∧ r.y + r.height ≤ s.y + s.height

/-- The selector sort at the end of parse_selectors (css/parser.rs):
`selectors.sort_by_key(|b| std::cmp::Reverse(b.specificity()))`, a stable
sort descending by specificity (the surrounding text scanning belongs to
the external parser boundary). -/
def sortSelectors (selectors : List Selector) : List Selector :=
  selectors.mergeSort (fun a b => specLe b.specificity a.specificity)

/-- The claim's reading of rasterization (stated from the specification's
words, for comparison with the code): every pixel whose integer
coordinates lie in the intersection of the command's rectangle with
`[0,width) × [0,height)` is overwritten with the color, and every other
pixel is left unchanged. -/
def paintsExactlyClaim (c : Canvas) (color : Color) (rect : Rect) : Prop :=
  ∀ x y : ℕ, x < c.width → y < c.height →
    (c.paint_item (.SolidColor color rect)).pixels[x + y * c.width]? =
      if rect.x ≤ (x : ℚ) ∧ (x : ℚ) < rect.x + rect.width ∧
         rect.y ≤ (y : ℚ) ∧ (y : ℚ) < rect.y + rect.height
      then some color else c.pixels[x + y * c.width]?

mutual

/-- Whether no styled node in the tree (root included) has display None. -/
def noNoneStyled : StyledNode → Bool
  | .mk nd pm children =>
    ((StyledNode.mk nd pm children).display != Display.None) && noNoneStyledList children

/-- List form of noNoneStyled. -/
def noNoneStyledList : List StyledNode → Bool
  | [] => true
  | c :: rest => noNoneStyled c && noNoneStyledList rest

end

mutual

/-- Number of nodes in a document tree. -/
def Node.count : Node → ℕ
  | .mk children _ => 1 + countNodes children

/-- Number of nodes in a forest of document trees. -/
def countNodes : List Node → ℕ
  | [] => 0
  | c :: rest => Node.count c + countNodes rest

end

mutual

/-- Number of nodes in a styled tree. -/
def StyledNode.count : StyledNode → ℕ
  | .mk _ _ children => 1 + countStyledNodes children

/-- Number of nodes in a forest of styled trees. -/
def countStyledNodes : List StyledNode → ℕ
  | [] => 0
  | c :: rest => StyledNode.count c + countStyledNodes rest

end

/-- The one-rule stylesheet `div { display: none; }`. -/
def sheetDivNone : Stylesheet :=
  ⟨[⟨[.Simple ⟨some "div", none, []⟩], [⟨"display", .Keyword "none"⟩]⟩]⟩

/-- The document `<p><div></div></p>`. -/
def docPDiv : Node :=
  .mk [.mk [] (.Element ⟨"div", []⟩)] (.Element ⟨"p", []⟩)

/-- Whether a box type's styled-node reference (if any) has non-None display. -/
def BoxType.displayOk : BoxType → Bool
  | .BlockNode sn => sn.display != Display.None
  | .InlineNode sn => sn.display != Display.None
  | .AnonymousBlock => true

mutual

/-- No box in the layout tree references a styled node with display None. -/
def noneFreeBox : LayoutBox → Bool
  | .mk _ bt children => bt.displayOk && noneFreeBoxes children

/-- List form of noneFreeBox. -/
def noneFreeBoxes : List LayoutBox → Bool
  | [] => true
  | c :: rest => noneFreeBox c && noneFreeBoxes rest

end

/-! ## The cascade: from the sorted fold to the specificity-maximal rule -/

/-- One override step of the cascade at property `k`: a later rule's last
declaration for `k` (when present) overrides the accumulated value. -/
def cascadeStep (k : String) (a : Option Value) (r : MatchedRule) : Option Value :=
  match lastDeclValue k r.2.declarations with
  | some v => some v
  | none => a

/-- The rule-level fold of the cascade: the value of the last declaration
for `k` across a list of matched rules, later rules overriding. -/
def rulesLast (k : String) (rs : List MatchedRule) : Option Value :=
  rs.foldl (cascadeStep k) none

/-- The spec's first cascade example: `p { color: red; }` then
`.foo { color: blue; }`. -/
def sheetTagThenClass : Stylesheet :=
  ⟨[⟨[.Simple ⟨some "p", none, []⟩], [⟨"color", .Keyword "red"⟩]⟩,
    ⟨[.Simple ⟨none, none, ["foo"]⟩], [⟨"color", .Keyword "blue"⟩]⟩]⟩

/-- The spec's second cascade example: `p { color: red; } p { color: blue; }`. -/
def sheetTagTwice : Stylesheet :=
  ⟨[⟨[.Simple ⟨some "p", none, []⟩], [⟨"color", .Keyword "red"⟩]⟩,
    ⟨[.Simple ⟨some "p", none, []⟩], [⟨"color", .Keyword "blue"⟩]⟩]⟩

/-! ## Lemmas and claim theorems -/

/-! ## Basic facts about the specificity order -/

lemma specLe_refl (a : Specificity) : specLe a a = true := by
  simp [specLe]

lemma specLe_total (a b : Specificity) : (specLe a b || specLe b a) = true := by
  simp only [specLe, Bool.or_eq_true, Bool.and_eq_true, decide_eq_true_eq]
  omega

lemma specLe_trans (a b c : Specificity) :
    specLe a b = true → specLe b c = true → specLe a c = true := by
  simp only [specLe, Bool.or_eq_true, Bool.and_eq_true, decide_eq_true_eq]
  omega

lemma specLe_antisymm (a b : Specificity) :
    specLe a b = true → specLe b a = true → a = b := by
  simp only [specLe, Bool.or_eq_true, Bool.and_eq_true, decide_eq_true_eq]
  intro h1 h2
  have : a.1 = b.1 ∧ a.2.1 = b.2.1 ∧ a.2.2 = b.2.2 := by omega
  obtain ⟨e1, e2, e3⟩ := this
  exact Prod.ext e1 (Prod.ext e2 e3)

/-- C7: Box-model identity and monotonicity.  The margin box expands the
content rect by the literal sum of the padding, border and margin offsets
on each side, and for non-negative edge sizes the boxes are nested:
content ⊆ padding box ⊆ border box ⊆ margin box. -/
theorem C7_box_model (D : Dimensions) :
    (D.margin_box = ((D.content.expanded_by D.padding).expanded_by D.border).expanded_by D.margin) ∧
    (D.margin_box.x = D.content.x - D.padding.left - D.border.left - D.margin.left) ∧
    (D.margin_box.y = D.content.y - D.padding.top - D.border.top - D.margin.top) ∧
    (D.margin_box.width = D.content.width + (D.padding.left + D.padding.right)
        + (D.border.left + D.border.right) + (D.margin.left + D.margin.right)) ∧
    (D.margin_box.height = D.content.height + (D.padding.top + D.padding.bottom)
        + (D.border.top + D.border.bottom) + (D.margin.top + D.margin.bottom)) ∧
    ((0 ≤ D.padding.left ∧ 0 ≤ D.padding.right ∧ 0 ≤ D.padding.top ∧ 0 ≤ D.padding.bottom ∧
      0 ≤ D.border.left ∧ 0 ≤ D.border.right ∧ 0 ≤ D.border.top ∧ 0 ≤ D.border.bottom ∧
      0 ≤ D.margin.left ∧ 0 ≤ D.margin.right ∧ 0 ≤ D.margin.top ∧ 0 ≤ D.margin.bottom) →
      (D.content.insideOf D.padding_box ∧ D.padding_box.insideOf D.border_box ∧
       D.border_box.insideOf D.margin_box)) := by
  refine ⟨rfl, ?_, ?_, ?_, ?_, ?_⟩
  · simp only [Dimensions.margin_box, Dimensions.border_box, Dimensions.padding_box,
      Rect.expanded_by]
    try ring
  · simp only [Dimensions.margin_box, Dimensions.border_box, Dimensions.padding_box,
      Rect.expanded_by]
    try ring
  · simp only [Dimensions.margin_box, Dimensions.border_box, Dimensions.padding_box,
      Rect.expanded_by]
    try ring
  · simp only [Dimensions.margin_box, Dimensions.border_box, Dimensions.padding_box,
      Rect.expanded_by]
    try ring
  · rintro ⟨h1, h2, h3, h4, h5, h6, h7, h8, h9, h10, h11, h12⟩
    refine ⟨?_, ?_, ?_⟩ <;>
      simp only [Rect.insideOf, Dimensions.margin_box, Dimensions.border_box,
        Dimensions.padding_box, Rect.expanded_by] <;>
      refine ⟨by linarith, by linarith, by linarith, by linarith⟩

/-- Witness for C7 at a concrete Dimensions value with positive edges. -/
theorem C7_box_model_witness :
    ((Dimensions.mk ⟨10, 20, 100, 50⟩ ⟨1, 2, 3, 4⟩ ⟨5, 6, 7, 8⟩ ⟨9, 10, 11, 12⟩).content.insideOf
      (Dimensions.mk ⟨10, 20, 100, 50⟩ ⟨1, 2, 3, 4⟩ ⟨5, 6, 7, 8⟩ ⟨9, 10, 11, 12⟩).padding_box) ∧
    ((Dimensions.mk ⟨10, 20, 100, 50⟩ ⟨1, 2, 3, 4⟩ ⟨5, 6, 7, 8⟩ ⟨9, 10, 11, 12⟩).padding_box.insideOf
      (Dimensions.mk ⟨10, 20, 100, 50⟩ ⟨1, 2, 3, 4⟩ ⟨5, 6, 7, 8⟩ ⟨9, 10, 11, 12⟩).border_box) ∧
    ((Dimensions.mk ⟨10, 20, 100, 50⟩ ⟨1, 2, 3, 4⟩ ⟨5, 6, 7, 8⟩ ⟨9, 10, 11, 12⟩).border_box.insideOf
      (Dimensions.mk ⟨10, 20, 100, 50⟩ ⟨1, 2, 3, 4⟩ ⟨5, 6, 7, 8⟩ ⟨9, 10, 11, 12⟩).margin_box) :=
  (C7_box_model _).2.2.2.2.2 (by norm_num)

/-- C6: Viewport-height noninterference.  Two containing blocks that agree
on everything except the caller-supplied content height produce identical
layout trees: layout_tree resets the content height to zero before the
pass, so the height is never an input to layout. -/
theorem C6_height_noninterference (node : StyledNode) (cb1 cb2 : Dimensions)
    (hx : cb1.content.x = cb2.content.x) (hy : cb1.content.y = cb2.content.y)
    (hw : cb1.content.width = cb2.content.width)
    (hp : cb1.padding = cb2.padding) (hb : cb1.border = cb2.border)
    (hm : cb1.margin = cb2.margin) :
    layout_tree node cb1 = layout_tree node cb2 := by
  unfold layout_tree
  have : { cb1 with content := { cb1.content with height := 0 } }
      = { cb2 with content := { cb2.content with height := 0 } } := by
    cases cb1 with
    | mk c1 p1 b1 m1 =>
      cases cb2 with
      | mk c2 p2 b2 m2 =>
        cases c1
        cases c2
        simp_all
  rw [this]

/-- Witness for C6: containing blocks of height 600 and 123 yield the same
layout tree. -/
theorem C6_height_noninterference_witness :
    layout_tree (.mk (.mk [] (.Text "t")) PropertyMap.empty [])
        ⟨⟨0, 0, 800, 600⟩, EdgeSizes.default0, EdgeSizes.default0, EdgeSizes.default0⟩
      = layout_tree (.mk (.mk [] (.Text "t")) PropertyMap.empty [])
        ⟨⟨0, 0, 800, 123⟩, EdgeSizes.default0, EdgeSizes.default0, EdgeSizes.default0⟩ :=
  C6_height_noninterference _ _ _ rfl rfl rfl rfl rfl rfl

/-- C8: Auto-width resolution (the width solver is modelled from the spec,
layout_box.rs being absent from the sources).  When the `width` property
is the keyword `auto` (or absent, which defaults to auto), the resolved
content width is the containing block's content width minus the resolved
horizontal margins, borders and paddings, clamped to zero (borders are
zero in this policy; an auto margin resolves to zero width contribution,
as does the auto width keyword itself). -/
theorem C8_auto_width (style : PropertyMap) (d cb : Dimensions)
    (hw : style "width" = some (Value.Keyword "auto") ∨ style "width" = none) :
    (calculate_block_width style d cb).content.width =
      max 0 (cb.content.width -
        ((style.lookup "margin-left" "margin" (Value.Length 0 .Px)).to_px
          + (style.lookup "margin-right" "margin" (Value.Length 0 .Px)).to_px
          + 0 + 0
          + (style.lookup "padding-left" "padding" (Value.Length 0 .Px)).to_px
          + (style.lookup "padding-right" "padding" (Value.Length 0 .Px)).to_px)) := by
  have hauto : (style "width").getD (Value.Keyword "auto") = Value.Keyword "auto" := by
    rcases hw with h | h <;> simp [h]
  simp only [calculate_block_width, hauto]
  simp only [List.foldl, ne_eq, not_true_eq_false, false_and, if_false, if_true, reduceIte]
  rw [apply_ite (fun p : Value × Value × Value => p.1)]
  rw [apply_ite Value.to_px]
  set a := (style.lookup "margin-left" "margin" (Value.Length 0 CssUnit.Px)).to_px with ha
  set b := (style.lookup "margin-right" "margin" (Value.Length 0 CssUnit.Px)).to_px with hb
  set c := (style.lookup "padding-left" "padding" (Value.Length 0 CssUnit.Px)).to_px with hc
  set e := (style.lookup "padding-right" "padding" (Value.Length 0 CssUnit.Px)).to_px with he
  simp only [Value.to_px, ge_iff_le]
  rw [show (0 : ℚ) + a + b + 0 + 0 + c + e + 0 = a + b + 0 + 0 + c + e by ring]
  rw [max_def]

/-- Witness for C8: the spec's concrete example — containing width 800,
`width: auto`, zero margins/border/padding resolves to content width 800. -/
theorem C8_auto_width_witness :
    (calculate_block_width PropertyMap.empty Dimensions.default0
        ⟨⟨0, 0, 800, 0⟩, EdgeSizes.default0, EdgeSizes.default0, EdgeSizes.default0⟩).content.width
      = 800 := by
  rw [C8_auto_width PropertyMap.empty _ _ (Or.inr rfl)]
  norm_num [PropertyMap.lookup, PropertyMap.empty, Value.to_px]

/-- If `find?` returns a hit on a list that is pairwise sorted descending
by specificity, every matching element's specificity is bounded by the
hit's specificity. -/
lemma find?_specificity_max (elem : ElementData) :
    ∀ (l : List Selector),
      l.Pairwise (fun x y => specLe y.specificity x.specificity = true) →
      ∀ a, l.find? (fun s => matches' elem s) = some a →
      ∀ b ∈ l, matches' elem b = true → specLe b.specificity a.specificity = true := by
  intro l
  induction l with
  | nil => intro _ a ha; simp at ha
  | cons x xs ih =>
    intro hp a ha b hb hbm
    rw [List.pairwise_cons] at hp
    by_cases hx : matches' elem x = true
    · rw [List.find?_cons_of_pos _ hx] at ha
      injection ha with ha
      subst ha
      rcases List.mem_cons.mp hb with rfl | hb'
      · exact specLe_refl _
      · exact hp.1 b hb'
    · rw [List.find?_cons_of_neg _ hx] at ha
      rcases List.mem_cons.mp hb with rfl | hb'
      · exact absurd hbm hx
      · exact ih hp.2 a ha b hb' hbm

/-- C2: Selector matching.  A rule of the stylesheet appears in
matching_rules exactly when one of its selectors matches; a simple
selector matches exactly when each present component (tag, id, every
class) is satisfied by the element; and the empty selector matches every
element. -/
theorem C2_selector_matching (elem : ElementData) (stylesheet : Stylesheet) :
    (∀ r ∈ stylesheet.rules,
      ((∃ sp, (sp, r) ∈ matching_rules elem stylesheet) ↔
        ∃ sel ∈ r.selectors, matches' elem sel = true)) ∧
    (∀ s : SimpleSelector,
      (matches_simple_selector elem s = true ↔
        ((∀ t, s.tag_name = some t → elem.tag_name = t) ∧
         (∀ i, s.id = some i → elem.id = some i) ∧
         (∀ c ∈ s.class', elem.classes.contains c = true)))) ∧
    matches_simple_selector elem ⟨none, none, []⟩ = true := by
  refine ⟨?_, ?_, ?_⟩
  · intro r hr
    constructor
    · rintro ⟨sp, hmem⟩
      rw [matching_rules, List.mem_filterMap] at hmem
      obtain ⟨rule', _, heq⟩ := hmem
      rw [match_rule, Option.map_eq_some'] at heq
      obtain ⟨sel, hfind, heq2⟩ := heq
      have hrr : rule' = r := congrArg Prod.snd heq2
      subst hrr
      exact ⟨sel, List.mem_of_find?_eq_some hfind, List.find?_some hfind⟩
    · rintro ⟨sel, hselmem, hsel⟩
      cases hfind : r.selectors.find? (fun s => matches' elem s) with
      | none =>
        rw [List.find?_eq_none] at hfind
        exact absurd hsel (by simpa using hfind sel hselmem)
      | some sel' =>
        refine ⟨sel'.specificity, ?_⟩
        rw [matching_rules, List.mem_filterMap]
        exact ⟨r, hr, by rw [match_rule, hfind]; rfl⟩
  · intro s
    rcases s with ⟨tg, i, cls⟩
    unfold matches_simple_selector
    split_ifs with h1 h2 h3
    · simp only [Bool.false_eq_true, false_iff]
      rintro ⟨ht, -, -⟩
      rcases tg with - | t
      · simp [Option.any] at h1
      · simp only [Option.any, bne_iff_ne, ne_eq] at h1
        exact h1 (ht t rfl)
    · simp only [Bool.false_eq_true, false_iff]
      rintro ⟨-, hi, -⟩
      rcases i with - | iv
      · simp [Option.any] at h2
      · simp only [Option.any, bne_iff_ne, ne_eq] at h2
        exact h2 (hi iv rfl)
    · simp only [Bool.false_eq_true, false_iff]
      rintro ⟨-, -, hc⟩
      rw [List.any_eq_true] at h3
      obtain ⟨c, hcmem, hcbad⟩ := h3
      rw [Bool.not_eq_true'] at hcbad
      exact absurd (hc c hcmem) (by simp only [hcbad]; exact Bool.false_ne_true)
    · simp only [true_iff]
      refine ⟨?_, ?_, ?_⟩
      · intro t ht
        subst ht
        simp only [Option.any, bne_iff_ne, ne_eq, not_not] at h1
        exact h1
      · intro iv hi
        subst hi
        simp only [Option.any, bne_iff_ne, ne_eq, not_not] at h2
        exact h2
      · intro c hcmem
        by_contra hcc
        rw [Bool.not_eq_true] at hcc
        exact h3 (List.any_eq_true.mpr ⟨c, hcmem, by rw [hcc]; rfl⟩)
  · rfl

/-- Witness for C2 at a concrete element: the empty simple selector
matches it. -/
theorem C2_selector_matching_witness :
    matches_simple_selector ⟨"p", [("class", "foo")]⟩ ⟨none, none, []⟩ = true :=
  (C2_selector_matching ⟨"p", [("class", "foo")]⟩ ⟨[]⟩).2.2

/-- C3: Recorded specificity per matched rule.  parse_selectors leaves the
selector list pairwise sorted descending by specificity, and for a rule
whose selectors are so sorted, match_rule pairs the rule with the
specificity of its highest-specificity matching selector and returns
`none` exactly when no selector matches. -/
theorem C3_match_rule_specificity (elem : ElementData) (rule : Rule)
    (hsorted : rule.selectors.Pairwise
      (fun x y => specLe y.specificity x.specificity = true)) :
    (match_rule elem rule = none ↔ ∀ sel ∈ rule.selectors, matches' elem sel = false) ∧
    (∀ sp r', match_rule elem rule = some (sp, r') →
      r' = rule ∧
      ∃ sel ∈ rule.selectors, matches' elem sel = true ∧ sel.specificity = sp ∧
        ∀ sel' ∈ rule.selectors, matches' elem sel' = true →
          specLe sel'.specificity sp = true) ∧
    (∀ selectors : List Selector,
      (sortSelectors selectors).Pairwise
        (fun x y => specLe y.specificity x.specificity = true)) := by
  refine ⟨?_, ?_, ?_⟩
  · rw [match_rule, Option.map_eq_none', List.find?_eq_none]
    constructor
    · intro h sel hsel
      simpa using h sel hsel
    · intro h sel hsel
      simp [h sel hsel]
  · intro sp r' heq
    rw [match_rule, Option.map_eq_some'] at heq
    obtain ⟨sel, hfind, heq2⟩ := heq
    have hsp : sel.specificity = sp := congrArg Prod.fst heq2
    have hrr : rule = r' := congrArg Prod.snd heq2
    refine ⟨hrr.symm, sel, List.mem_of_find?_eq_some hfind, List.find?_some hfind, hsp, ?_⟩
    intro sel' hmem hm
    rw [← hsp]
    exact find?_specificity_max elem rule.selectors hsorted sel hfind sel' hmem hm
  · intro selectors
    exact List.sorted_mergeSort
      (fun a b c hab hbc => specLe_trans c.specificity b.specificity a.specificity hbc hab)
      (fun a b => specLe_total b.specificity a.specificity) selectors

/-- Witness for C3 at a concrete element and rule: the rule
`p, .foo { }` (selectors sorted descending: `.foo` then `p`) does not
match a `<q>` element, so match_rule returns none. -/
theorem C3_match_rule_specificity_witness :
    match_rule ⟨"q", []⟩
      ⟨[.Simple ⟨none, none, ["foo"]⟩, .Simple ⟨some "p", none, []⟩], []⟩ = none :=
  (C3_match_rule_specificity ⟨"q", []⟩
      ⟨[.Simple ⟨none, none, ["foo"]⟩, .Simple ⟨some "p", none, []⟩], []⟩
      (by decide)).1.mpr (by decide)

/-! ## Facts about the rasterizer's clipping bounds -/

lemma clampQ_le_hi (v hi : ℚ) (h0 : 0 ≤ hi) : clampQ v 0 hi ≤ hi := by
  unfold clampQ
  split_ifs with h1 h2
  · exact h0
  · exact le_refl hi
  · linarith

lemma qToUsize_le_of_le (v : ℚ) (n : ℕ) (h : v ≤ (n : ℚ)) : qToUsize v ≤ n := by
  unfold qToUsize
  have : ⌊v⌋ ≤ (n : ℤ) := by
    have := Int.floor_le_floor h
    rwa [Int.floor_natCast] at this
  omega

/-- The clipped upper loop bound on the x axis never exceeds the canvas width. -/
lemma paint_x1_le (w : ℕ) (q : ℚ) : qToUsize (clampQ q 0 (w : ℚ)) ≤ w :=
  qToUsize_le_of_le _ _ (clampQ_le_hi q (w : ℚ) (by positivity))

/-- Row-major indices of distinct cells inside a row of width `w` are distinct. -/
lemma cell_index_inj {w x x' y y' : ℕ} (hx : x < w) (hx' : x' < w)
    (h : x + y * w = x' + y' * w) : x = x' ∧ y = y' := by
  have e1 : (x + y * w) % w = x := by
    rw [Nat.add_mul_mod_self_right]
    exact Nat.mod_eq_of_lt hx
  have e2 : (x' + y' * w) % w = x' := by
    rw [Nat.add_mul_mod_self_right]
    exact Nat.mod_eq_of_lt hx'
  have hxx : x = x' := by rw [← e1, ← e2, h]
  refine ⟨hxx, ?_⟩
  subst hxx
  have := Nat.add_left_cancel h
  exact Nat.eq_of_mul_eq_mul_right (by omega) this

/-- A cell with `x < w`, `y < h` has row-major index below `w * h`. -/
lemma cell_index_lt {w h x y : ℕ} (hx : x < w) (hy : y < h) : x + y * w < w * h :=
  calc x + y * w < w + y * w := by omega
  _ = (y + 1) * w := by ring
  _ ≤ h * w := Nat.mul_le_mul_right w hy
  _ = w * h := Nat.mul_comm h w

/-- Overwriting a list of indices with a fixed color: the read-back at `i`
is the color exactly when `i` is among the indices and in range. -/
lemma foldl_set_getElem? (color : Color) :
    ∀ (idxs : List ℕ) (px : List Color) (i : ℕ),
      (idxs.foldl (fun px j => px.set j color) px)[i]? =
        if i ∈ idxs ∧ i < px.length then some color else px[i]? := by
  intro idxs
  induction idxs with
  | nil => intro px i; simp
  | cons j js ih =>
    intro px i
    rw [List.foldl_cons, ih, List.length_set, List.getElem?_set]
    by_cases hlen : i < px.length
    · by_cases hmem : i ∈ js
      · rw [if_pos ⟨hmem, hlen⟩, if_pos ⟨List.mem_cons_of_mem j hmem, hlen⟩]
      · have hc1 : ¬(i ∈ js ∧ i < px.length) := fun hc => hmem hc.1
        rw [if_neg hc1]
        by_cases hij : j = i
        · subst hij
          rw [if_pos rfl, if_pos hlen, if_pos ⟨List.mem_cons_self j js, hlen⟩]
        · have hc2 : ¬(i ∈ j :: js ∧ i < px.length) := by
            rintro ⟨hc, -⟩
            rcases List.mem_cons.mp hc with rfl | hc'
            · exact hij rfl
            · exact hmem hc'
          rw [if_neg hij, if_neg hc2]
    · have hnone : px[i]? = none := List.getElem?_eq_none (by omega)
      have hc1 : ¬(i ∈ js ∧ i < px.length) := fun hc => hlen hc.2
      have hc2 : ¬(i ∈ j :: js ∧ i < px.length) := fun hc => hlen hc.2
      rw [if_neg hc1, if_neg hc2]
      by_cases hij : j = i
      · subst hij
        rw [if_pos rfl, if_neg hlen, hnone]
      · rw [if_neg hij]

/-- Length is preserved by the overwrite fold. -/
lemma foldl_set_length (color : Color) :
    ∀ (idxs : List ℕ) (px : List Color),
      (idxs.foldl (fun px j => px.set j color) px).length = px.length := by
  intro idxs
  induction idxs with
  | nil => intro px; rfl
  | cons j js ih => intro px; rw [List.foldl_cons, ih, List.length_set]

/-- The nested row/column overwrite loop of paint_item: the read-back at
`i` is the color exactly when `i` is the row-major index of a visited
cell and in range. -/
lemma foldl_rows_getElem? (color : Color) (w : ℕ) (xs : List ℕ) :
    ∀ (ys : List ℕ) (px : List Color) (i : ℕ),
      (ys.foldl (fun px y => xs.foldl (fun px x => px.set (x + y * w) color) px) px)[i]? =
        if (∃ y ∈ ys, ∃ x ∈ xs, i = x + y * w) ∧ i < px.length then some color
        else px[i]? := by
  intro ys
  induction ys with
  | nil => intro px i; simp
  | cons y ys ih =>
    intro px i
    have hinner : ∀ (q : List Color),
        xs.foldl (fun px x => px.set (x + y * w) color) q
          = (xs.map (fun x => x + y * w)).foldl (fun px j => px.set j color) q := by
      intro q
      rw [List.foldl_map]
    rw [List.foldl_cons, ih, hinner, foldl_set_length, foldl_set_getElem?]
    by_cases hlen : i < px.length
    · simp only [hlen, and_true]
      by_cases hrest : ∃ y' ∈ ys, ∃ x ∈ xs, i = x + y' * w
      · obtain ⟨y', hy', x, hx, hi⟩ := hrest
        rw [if_pos ⟨y', hy', x, hx, hi⟩,
          if_pos ⟨y', List.mem_cons_of_mem y hy', x, hx, hi⟩]
      · rw [if_neg hrest]
        by_cases hrow : i ∈ xs.map (fun x => x + y * w)
        · obtain ⟨x, hx, hi⟩ := List.mem_map.mp hrow
          rw [if_pos hrow, if_pos ⟨y, List.mem_cons_self y ys, x, hx, hi.symm⟩]
        · rw [if_neg hrow, if_neg ?_]
          rintro ⟨y', hy', x, hx, hi⟩
          rcases List.mem_cons.mp hy' with rfl | hy''
          · exact hrow (List.mem_map.mpr ⟨x, hx, hi.symm⟩)
          · exact hrest ⟨y', hy'', x, hx, hi⟩
    · simp only [hlen, and_false, if_false]

/-- Pixel-level characterization of paint_item for a canvas with a
well-formed pixel buffer: the pixel at cell `(x, y)` is overwritten with
the command's color exactly when `x` and `y` lie inside the clipped,
truncated loop bounds, and is untouched otherwise. -/
lemma paint_item_getElem? (c : Canvas) (color : Color) (rect : Rect)
    (hlen : c.pixels.length = c.width * c.height)
    (x y : ℕ) (hx : x < c.width) (hy : y < c.height) :
    (c.paint_item (.SolidColor color rect)).pixels[x + y * c.width]? =
      if qToUsize (clampQ rect.x 0 (c.width : ℚ)) ≤ x ∧
         x < qToUsize (clampQ (rect.x + rect.width) 0 (c.width : ℚ)) ∧
         qToUsize (clampQ rect.y 0 (c.height : ℚ)) ≤ y ∧
         y < qToUsize (clampQ (rect.y + rect.height) 0 (c.height : ℚ))
      then some color else c.pixels[x + y * c.width]? := by
  simp only [Canvas.paint_item]
  rw [foldl_rows_getElem?]
  set x0 := qToUsize (clampQ rect.x 0 (c.width : ℚ)) with hx0
  set x1 := qToUsize (clampQ (rect.x + rect.width) 0 (c.width : ℚ)) with hx1
  set y0 := qToUsize (clampQ rect.y 0 (c.height : ℚ)) with hy0
  set y1 := qToUsize (clampQ (rect.y + rect.height) 0 (c.height : ℚ)) with hy1
  have hx1w : x1 ≤ c.width := paint_x1_le c.width (rect.x + rect.width)
  have hy1h : y1 ≤ c.height := paint_x1_le c.height (rect.y + rect.height)
  by_cases hin : x0 ≤ x ∧ x < x1 ∧ y0 ≤ y ∧ y < y1
  · obtain ⟨h1, h2, h3, h4⟩ := hin
    have hcond : (∃ y' ∈ List.range' y0 (y1 - y0), ∃ x' ∈ List.range' x0 (x1 - x0),
        x + y * c.width = x' + y' * c.width) ∧ x + y * c.width < c.pixels.length := by
      refine ⟨⟨y, ?_, x, ?_, rfl⟩, ?_⟩
      · rw [List.mem_range'_1]
        omega
      · rw [List.mem_range'_1]
        omega
      · rw [hlen]
        exact cell_index_lt hx hy
    rw [if_pos hcond, if_pos ⟨h1, h2, h3, h4⟩]
  · rw [if_neg hin, if_neg]
    rintro ⟨⟨y', hy', x', hx', hidx⟩, -⟩
    rw [List.mem_range'_1] at hy' hx'
    have hx'w : x' < c.width := by omega
    obtain ⟨hxx, hyy⟩ := cell_index_inj hx hx'w hidx
    subst hxx
    subst hyy
    exact hin ⟨by omega, by omega, by omega, by omega⟩

/-- C10: paint_item stays in bounds.  For any rectangle at all, the
clipped loop bounds are at most the canvas width and height, so every
pixel index `x + y * width` touched by the paint loop is strictly below
the length of the pixel buffer produced by Canvas::new. -/
theorem C10_paint_item_in_bounds (w h : ℕ) (rect : Rect) :
    qToUsize (clampQ (rect.x + rect.width) 0 (w : ℚ)) ≤ w ∧
    qToUsize (clampQ (rect.y + rect.height) 0 (h : ℚ)) ≤ h ∧
    ∀ x y : ℕ, x < qToUsize (clampQ (rect.x + rect.width) 0 (w : ℚ)) →
      y < qToUsize (clampQ (rect.y + rect.height) 0 (h : ℚ)) →
      x + y * w < (Canvas.new w h).pixels.length := by
  refine ⟨paint_x1_le w _, paint_x1_le h _, ?_⟩
  intro x y hx hy
  have hxw : x < w := lt_of_lt_of_le hx (paint_x1_le w _)
  have hyh : y < h := lt_of_lt_of_le hy (paint_x1_le h _)
  have : (Canvas.new w h).pixels.length = w * h := by
    simp [Canvas.new]
  rw [this]
  exact cell_index_lt hxw hyh

/-- Witness for C10: a 2×1 canvas and the rectangle (0,0,2,1); the cell
(1,0) is visited and its index is in bounds. -/
theorem C10_paint_item_in_bounds_witness :
    1 + 0 * 2 < (Canvas.new 2 1).pixels.length :=
  (C10_paint_item_in_bounds 2 1 ⟨0, 0, 2, 1⟩).2.2 1 0
    (by norm_num [qToUsize, clampQ])
    (by norm_num [qToUsize, clampQ])

/-- Length is preserved by the nested row/column overwrite loop. -/
lemma foldl_rows_length (color : Color) (w : ℕ) (xs : List ℕ) :
    ∀ (ys : List ℕ) (px : List Color),
      (ys.foldl (fun px y => xs.foldl (fun px x => px.set (x + y * w) color) px) px).length
        = px.length := by
  intro ys
  induction ys with
  | nil => intro px; rfl
  | cons y ys ih =>
    intro px
    rw [List.foldl_cons, ih,
      show xs.foldl (fun px x => px.set (x + y * w) color) px
        = (xs.map (fun x => x + y * w)).foldl (fun px j => px.set j color) px from
        by rw [List.foldl_map],
      foldl_set_length]

/-- Counterexample to C9 as stated: on a 2×1 canvas, the rectangle with
x = 1/2 and width 1 covers the pixel coordinate (1,0) and not (0,0), yet
the truncated loop bounds paint exactly pixel (0,0) — the code truncates
the clamped fractional bounds rather than rasterizing the exact
intersection. -/
theorem C9_raster_counterexample :
    ¬ paintsExactlyClaim (Canvas.new 2 1) (Color.new 255 0 0 255) ⟨1/2, 0, 1, 1⟩ := by
  intro hclaim
  have h := hclaim 1 0 (by norm_num [Canvas.new]) (by norm_num [Canvas.new])
  rw [if_pos (by norm_num [Canvas.new])] at h
  have hx0 : qToUsize (clampQ ((1:ℚ)/2) 0 (((Canvas.new 2 1).width : ℕ) : ℚ)) = 0 := by
    norm_num [Canvas.new, clampQ, qToUsize]
  have hx1 : qToUsize (clampQ ((1:ℚ)/2 + 1) 0 (((Canvas.new 2 1).width : ℕ) : ℚ)) = 1 := by
    norm_num [Canvas.new, clampQ, qToUsize]
  have h2 := paint_item_getElem? (Canvas.new 2 1) (Color.new 255 0 0 255) ⟨1/2, 0, 1, 1⟩
    (by norm_num [Canvas.new]) 1 0 (by norm_num [Canvas.new]) (by norm_num [Canvas.new])
  rw [if_neg (by rw [hx0, hx1]; omega)] at h2
  rw [h] at h2
  have : (Canvas.new 2 1).pixels[1 + 0 * (Canvas.new 2 1).width]? = some (Color.new 255 255 255 255) := by
    norm_num [Canvas.new]
  rw [this] at h2
  simp [Color.new] at h2

/-- C9 amended: Canvas::new yields exactly `width * height` pixels, all
opaque white; paint_item overwrites with the command's color exactly the
pixels whose cell coordinates lie within the clamped-then-truncated loop
bounds (`⌊clamp⌋` of the rectangle's edges against the canvas extent,
which coincides with the exact rectangle intersection whenever the
rectangle's coordinates are integers), leaving all other pixels and the
canvas extent unchanged, with no alpha blending. -/
theorem C9_raster_semantics :
    (∀ w h : ℕ, (Canvas.new w h).pixels.length = w * h ∧
      ∀ p ∈ (Canvas.new w h).pixels, p = Color.new 255 255 255 255) ∧
    (∀ (c : Canvas) (color : Color) (rect : Rect),
      c.pixels.length = c.width * c.height →
      ((c.paint_item (.SolidColor color rect)).width = c.width ∧
       (c.paint_item (.SolidColor color rect)).height = c.height ∧
       (c.paint_item (.SolidColor color rect)).pixels.length = c.pixels.length ∧
       ∀ x y : ℕ, x < c.width → y < c.height →
        (c.paint_item (.SolidColor color rect)).pixels[x + y * c.width]? =
          if qToUsize (clampQ rect.x 0 (c.width : ℚ)) ≤ x ∧
             x < qToUsize (clampQ (rect.x + rect.width) 0 (c.width : ℚ)) ∧
             qToUsize (clampQ rect.y 0 (c.height : ℚ)) ≤ y ∧
             y < qToUsize (clampQ (rect.y + rect.height) 0 (c.height : ℚ))
          then some color else c.pixels[x + y * c.width]?)) := by
  constructor
  · intro w h
    constructor
    · simp [Canvas.new]
    · intro p hp
      exact (List.eq_of_mem_replicate hp)
  · intro c color rect hlen
    refine ⟨rfl, rfl, ?_, paint_item_getElem? c color rect hlen⟩
    simp only [Canvas.paint_item]
    exact foldl_rows_length color c.width _ _ c.pixels

/-- Witness for C9 amended: painting the unit square at the origin of a
2×1 canvas turns pixel (0,0) red. -/
theorem C9_raster_semantics_witness :
    ((Canvas.new 2 1).paint_item
        (.SolidColor (Color.new 255 0 0 255) ⟨0, 0, 1, 1⟩)).pixels[0 + 0 * (Canvas.new 2 1).width]?
      = some (Color.new 255 0 0 255) := by
  have h := (C9_raster_semantics.2 (Canvas.new 2 1) (Color.new 255 0 0 255) ⟨0, 0, 1, 1⟩
    (by norm_num [Canvas.new])).2.2.2 0 0 (by norm_num [Canvas.new]) (by norm_num [Canvas.new])
  rw [h, if_pos (by norm_num [Canvas.new, clampQ, qToUsize])]

lemma styleChildren_eq_map (cs : List Node) (stylesheet : Stylesheet) :
    styleChildren cs stylesheet = cs.map (fun c => style_tree c stylesheet) := by
  induction cs with
  | nil => rfl
  | cons c rest ih => rw [styleChildren, ih, List.map_cons]

mutual

theorem style_tree_count (root : Node) (stylesheet : Stylesheet) :
    (style_tree root stylesheet).count = root.count := by
  cases root with
  | mk children nt =>
    show 1 + countStyledNodes (styleChildren children stylesheet) = 1 + countNodes children
    rw [styleChildren_count children stylesheet]

theorem styleChildren_count (cs : List Node) (stylesheet : Stylesheet) :
    countStyledNodes (styleChildren cs stylesheet) = countNodes cs := by
  cases cs with
  | nil => rfl
  | cons c rest =>
    show StyledNode.count (style_tree c stylesheet) + countStyledNodes (styleChildren rest stylesheet)
      = Node.count c + countNodes rest
    rw [style_tree_count c stylesheet, styleChildren_count rest stylesheet]

end

/-- C4 amended: the styled tree mirrors the document's child order and
includes every document node — style_tree performs no display filtering
(subtrees with computed display None are retained; they are excluded
later, by the layout engine's tree builder). -/
theorem C4_styled_tree_mirrors (root : Node) (stylesheet : Stylesheet) :
    ((style_tree root stylesheet).children
        = root.children.map (fun c => style_tree c stylesheet)) ∧
    ((style_tree root stylesheet).count = root.count) := by
  constructor
  · cases root with
    | mk children nt =>
      show styleChildren children stylesheet = children.map (fun c => style_tree c stylesheet)
      exact styleChildren_eq_map children stylesheet
  · exact style_tree_count root stylesheet

/-- Counterexample to C4 as stated: styling `<p><div></div></p>` with
`div { display: none; }` leaves the display-None `<div>` subtree in the
styled tree — style_tree does not exclude it (exclusion happens later in
build_layout_tree, per spec §4.1). -/
theorem C4_counterexample : noNoneStyled (style_tree docPDiv sheetDivNone) = false := by
  have hm : matching_rules ⟨"div", []⟩ sheetDivNone
      = [((0, 0, 1), ⟨[.Simple ⟨some "div", none, []⟩], [⟨"display", .Keyword "none"⟩]⟩)] := rfl
  have hv : (style_tree (.mk [] (.Element ⟨"div", []⟩)) sheetDivNone).value "display"
      = some (.Keyword "none") := by
    show specified_values ⟨"div", []⟩ sheetDivNone "display" = some (.Keyword "none")
    simp only [specified_values, hm, List.mergeSort_singleton]
    rfl
  have hdisp : (style_tree (.mk [] (.Element ⟨"div", []⟩)) sheetDivNone).display
      = Display.None := by
    rw [StyledNode.display, hv]
    rfl
  show (((style_tree docPDiv sheetDivNone).display != Display.None)
      && (noNoneStyled (style_tree (.mk [] (.Element ⟨"div", []⟩)) sheetDivNone) && true)) = false
  rw [show noNoneStyled (style_tree (.mk [] (.Element ⟨"div", []⟩)) sheetDivNone)
      = (((style_tree (.mk [] (.Element ⟨"div", []⟩)) sheetDivNone).display != Display.None)
        && true) from rfl]
  rw [hdisp]
  simp

lemma noneFreeBoxes_iff (l : List LayoutBox) :
    noneFreeBoxes l = true ↔ ∀ x ∈ l, noneFreeBox x = true := by
  induction l with
  | nil => simp [noneFreeBoxes]
  | cons c rest ih =>
    rw [noneFreeBoxes, Bool.and_eq_true, ih]
    constructor
    · rintro ⟨h1, h2⟩ x hx
      rcases List.mem_cons.mp hx with rfl | hx'
      · exact h1
      · exact h2 x hx'
    · intro h
      exact ⟨h c (List.mem_cons_self c rest), fun x hx => h x (List.mem_cons_of_mem c hx)⟩

lemma noneFreeBoxes_append (l1 l2 : List LayoutBox) :
    noneFreeBoxes (l1 ++ l2) = (noneFreeBoxes l1 && noneFreeBoxes l2) := by
  induction l1 with
  | nil => simp [noneFreeBoxes]
  | cons c rest ih => rw [List.cons_append, noneFreeBoxes, ih, noneFreeBoxes, Bool.and_assoc]

/-- pushInline keeps the no-display-None invariant of the child list. -/
lemma pushInline_noneFree (bt : BoxType) (acc : List LayoutBox) (cb : LayoutBox)
    (hacc : noneFreeBoxes acc = true) (hcb : noneFreeBox cb = true) :
    noneFreeBoxes (pushInline bt acc cb) = true := by
  have hsingle : noneFreeBoxes [cb] = true := by
    rw [noneFreeBoxes, noneFreeBoxes, Bool.and_true, hcb]
  have hanon : noneFreeBoxes [.mk Dimensions.default0 .AnonymousBlock [cb]] = true := by
    rw [noneFreeBoxes, noneFreeBox, BoxType.displayOk, Bool.true_and, hsingle]
    rfl
  cases bt with
  | BlockNode sn =>
    rw [pushInline]
    cases hlast : acc.getLast? with
    | none => rw [noneFreeBoxes_append, hacc, hanon]; rfl
    | some last =>
      dsimp only
      by_cases hla : last.isAnonymous
      · rw [if_pos hla]
        have hlastmem : last ∈ acc := by
          obtain ⟨ys, hys⟩ := List.getLast?_eq_some_iff.mp hlast
          rw [hys]
          exact List.mem_append_right ys (List.mem_cons_self last [])
        have hlastok : noneFreeBox last = true := (noneFreeBoxes_iff acc).mp hacc last hlastmem
        have hdrop : noneFreeBoxes acc.dropLast = true := by
          rw [noneFreeBoxes_iff]
          intro x hx
          exact (noneFreeBoxes_iff acc).mp hacc x (List.dropLast_subset acc hx)
        rw [noneFreeBoxes_append, hdrop, Bool.true_and]
        cases last with
        | mk ld lbt lkids =>
          cases lbt with
          | AnonymousBlock =>
            have hkids : noneFreeBoxes lkids = true := by
              have h2 : (BoxType.AnonymousBlock.displayOk && noneFreeBoxes lkids) = true := hlastok
              simpa [BoxType.displayOk] using h2
            show (noneFreeBox (LayoutBox.mk ld BoxType.AnonymousBlock (lkids ++ [cb])) && true) = true
            rw [show noneFreeBox (LayoutBox.mk ld BoxType.AnonymousBlock (lkids ++ [cb]))
                = (BoxType.AnonymousBlock.displayOk && noneFreeBoxes (lkids ++ [cb])) from rfl,
              noneFreeBoxes_append, hkids, hsingle]
            rfl
          | BlockNode sn' =>
            have hf : (LayoutBox.mk ld (BoxType.BlockNode sn') lkids).isAnonymous = false := rfl
            rw [hf] at hla
            exact absurd hla (by simp)
          | InlineNode sn' =>
            have hf : (LayoutBox.mk ld (BoxType.InlineNode sn') lkids).isAnonymous = false := rfl
            rw [hf] at hla
            exact absurd hla (by simp)
      · rw [if_neg hla, noneFreeBoxes_append, hacc, hanon]; rfl
  | InlineNode sn =>
    show noneFreeBoxes (acc ++ [cb]) = true
    rw [noneFreeBoxes_append, hacc, hsingle]; rfl
  | AnonymousBlock =>
    show noneFreeBoxes (acc ++ [cb]) = true
    rw [noneFreeBoxes_append, hacc, hsingle]; rfl

mutual

/-- build_layout_tree succeeds on every styled node whose display is not None. -/
theorem build_isSome (sn : StyledNode) (h : sn.display ≠ Display.None) :
    (build_layout_tree sn).isSome = true := by
  cases sn with
  | mk nd pm children =>
    cases hd : (StyledNode.mk nd pm children).display with
    | None => exact absurd hd h
    | Block =>
      show (build_layout_tree (.mk nd pm children)).isSome = true
      rw [build_layout_tree, hd]
      dsimp only
      cases hb : buildChildren (BoxType.BlockNode (StyledNode.mk nd pm children)) children [] with
      | none =>
        have hs := buildChildren_isSome (BoxType.BlockNode (StyledNode.mk nd pm children)) children []
        rw [hb] at hs
        cases hs
      | some ks => rfl
    | Inline =>
      show (build_layout_tree (.mk nd pm children)).isSome = true
      rw [build_layout_tree, hd]
      dsimp only
      cases hb : buildChildren (BoxType.InlineNode (StyledNode.mk nd pm children)) children [] with
      | none =>
        have hs := buildChildren_isSome (BoxType.InlineNode (StyledNode.mk nd pm children)) children []
        rw [hb] at hs
        cases hs
      | some ks => rfl

/-- The child loop of build_layout_tree never fails: None-display children
are skipped and the others recurse below a non-None display check. -/
theorem buildChildren_isSome (bt : BoxType) (cs : List StyledNode) (acc : List LayoutBox) :
    (buildChildren bt cs acc).isSome = true := by
  cases cs with
  | nil => rfl
  | cons child rest =>
    show (buildChildren bt (child :: rest) acc).isSome = true
    rw [buildChildren]
    cases hd : child.display with
    | Block =>
      have hs := build_isSome child (by rw [hd]; intro hc; cases hc)
      cases hb : build_layout_tree child with
      | none => rw [hb] at hs; cases hs
      | some cb => exact buildChildren_isSome bt rest (acc ++ [cb])
    | Inline =>
      have hs := build_isSome child (by rw [hd]; intro hc; cases hc)
      cases hb : build_layout_tree child with
      | none => rw [hb] at hs; cases hs
      | some cb => exact buildChildren_isSome bt rest (pushInline bt acc cb)
    | None => exact buildChildren_isSome bt rest acc

end

mutual

/-- Every box produced by build_layout_tree references only styled nodes
whose display is not None. -/
theorem build_noneFree (sn : StyledNode) (b : LayoutBox)
    (hb : build_layout_tree sn = some b) : noneFreeBox b = true := by
  cases sn with
  | mk nd pm children =>
    cases hd : (StyledNode.mk nd pm children).display with
    | None =>
      rw [build_layout_tree, hd] at hb
      cases hb
    | Block =>
      rw [build_layout_tree, hd] at hb
      dsimp only at hb
      rw [Option.map_eq_some'] at hb
      obtain ⟨ks, hks, hbeq⟩ := hb
      subst hbeq
      show (BoxType.displayOk (BoxType.BlockNode (StyledNode.mk nd pm children))
          && noneFreeBoxes ks) = true
      rw [show BoxType.displayOk (BoxType.BlockNode (StyledNode.mk nd pm children))
          = ((StyledNode.mk nd pm children).display != Display.None) from rfl, hd]
      rw [buildChildren_noneFree _ children [] ks hks rfl]
      rfl
    | Inline =>
      rw [build_layout_tree, hd] at hb
      dsimp only at hb
      rw [Option.map_eq_some'] at hb
      obtain ⟨ks, hks, hbeq⟩ := hb
      subst hbeq
      show (BoxType.displayOk (BoxType.InlineNode (StyledNode.mk nd pm children))
          && noneFreeBoxes ks) = true
      rw [show BoxType.displayOk (BoxType.InlineNode (StyledNode.mk nd pm children))
          = ((StyledNode.mk nd pm children).display != Display.None) from rfl, hd]
      rw [buildChildren_noneFree _ children [] ks hks rfl]
      rfl

/-- The child loop of build_layout_tree keeps the no-display-None
invariant of the accumulated child list. -/
theorem buildChildren_noneFree (bt : BoxType) (cs : List StyledNode)
    (acc : List LayoutBox) (ks : List LayoutBox)
    (hks : buildChildren bt cs acc = some ks) (hacc : noneFreeBoxes acc = true) :
    noneFreeBoxes ks = true := by
  cases cs with
  | nil =>
    cases hks
    exact hacc
  | cons child rest =>
    rw [buildChildren] at hks
    cases hd : child.display with
    | Block =>
      rw [hd] at hks
      cases hcb : build_layout_tree child with
      | none => rw [hcb] at hks; cases hks
      | some cb =>
        rw [hcb] at hks
        refine buildChildren_noneFree bt rest (acc ++ [cb]) ks hks ?_
        rw [noneFreeBoxes_append, hacc, Bool.true_and, noneFreeBoxes,
          build_noneFree child cb hcb]
        rfl
    | Inline =>
      rw [hd] at hks
      cases hcb : build_layout_tree child with
      | none => rw [hcb] at hks; cases hks
      | some cb =>
        rw [hcb] at hks
        exact buildChildren_noneFree bt rest (pushInline bt acc cb) ks hks
          (pushInline_noneFree bt acc cb hacc (build_noneFree child cb hcb))
    | None =>
      rw [hd] at hks
      exact buildChildren_noneFree bt rest acc ks hks hacc

end

mutual

/-- The geometry pass changes only dimensions, never the box types or the
tree shape, so it preserves the no-display-None invariant. -/
theorem layout_noneFree (b : LayoutBox) (cb : Dimensions) :
    noneFreeBox (b.layout cb) = noneFreeBox b := by
  cases b with
  | mk d0 bt kids =>
    cases bt with
    | InlineNode sn => rfl
    | BlockNode sn =>
      show (BoxType.displayOk (BoxType.BlockNode sn)
          && noneFreeBoxes (layoutChildren kids
            (calculate_block_position (BoxType.BlockNode sn).styleProps
              (calculate_block_width (BoxType.BlockNode sn).styleProps d0 cb) cb)).1) = _
      rw [layoutChildren_noneFree]
      rfl
    | AnonymousBlock =>
      show (BoxType.displayOk BoxType.AnonymousBlock
          && noneFreeBoxes (layoutChildren kids
            (calculate_block_position BoxType.AnonymousBlock.styleProps
              (calculate_block_width BoxType.AnonymousBlock.styleProps d0 cb) cb)).1) = _
      rw [layoutChildren_noneFree]
      rfl

/-- List form of layout_noneFree for the child loop. -/
theorem layoutChildren_noneFree (kids : List LayoutBox) (d : Dimensions) :
    noneFreeBoxes (layoutChildren kids d).1 = noneFreeBoxes kids := by
  cases kids with
  | nil => rfl
  | cons child rest =>
    show (noneFreeBox (child.layout d)
        && noneFreeBoxes (layoutChildren rest
          { d with content := { d.content with
              height := d.content.height + (child.layout d).dimensions.margin_box.height } }).1) = _
    rw [layout_noneFree, layoutChildren_noneFree]
    rfl

end

/-- C5: Fatal root display.  layout_tree fails (the modelled panic,
`none`) exactly when the root styled node's display resolves to None; for
a Block or Inline root it returns a layout tree, and display-None
descendants never cause a failure — every box of the returned tree
references only styled nodes whose display is not None (those subtrees
were omitted). -/
theorem C5_root_display_fatal (sn : StyledNode) (cb : Dimensions) :
    (layout_tree sn cb = none ↔ sn.display = Display.None) ∧
    (∀ b, layout_tree sn cb = some b → noneFreeBox b = true) := by
  constructor
  · constructor
    · intro h
      by_contra hne
      have hs := build_isSome sn hne
      unfold layout_tree at h
      cases hb : build_layout_tree sn with
      | none => rw [hb] at hs; cases hs
      | some rb => rw [hb] at h; cases h
    · intro h
      unfold layout_tree
      have hb : build_layout_tree sn = none := by
        cases sn with
        | mk nd pm children =>
          rw [build_layout_tree, h]
      rw [hb]
  · intro b hb
    unfold layout_tree at hb
    cases hbuild : build_layout_tree sn with
    | none => rw [hbuild] at hb; cases hb
    | some rb =>
      rw [hbuild] at hb
      injection hb with hb
      rw [← hb, layout_noneFree]
      exact build_noneFree sn rb hbuild

/-- Witness for C5: an inline-display root (a styled text node with no
properties) yields a layout tree, and that tree is free of display-None
boxes. -/
theorem C5_root_display_fatal_witness :
    layout_tree (.mk (.mk [] (.Text "t")) PropertyMap.empty []) Dimensions.default0
      = some (.mk Dimensions.default0
          (BoxType.InlineNode (.mk (.mk [] (.Text "t")) PropertyMap.empty [])) []) ∧
    noneFreeBox (.mk Dimensions.default0
        (BoxType.InlineNode (.mk (.mk [] (.Text "t")) PropertyMap.empty [])) []) = true := by
  constructor
  · rfl
  · exact (C5_root_display_fatal (.mk (.mk [] (.Text "t")) PropertyMap.empty [])
      Dimensions.default0).2 _ rfl

lemma lastDeclValue_foldl_acc (k : String) :
    ∀ (ds : List Declaration) (acc : Option Value),
      ds.foldl (fun a d => if d.name = k then some d.value else a) acc
        = match lastDeclValue k ds with
          | some v => some v
          | none => acc := by
  intro ds
  induction ds with
  | nil => intro acc; rfl
  | cons d ds ih =>
    intro acc
    rw [List.foldl_cons, ih,
      show lastDeclValue k (d :: ds)
        = ds.foldl (fun a d => if d.name = k then some d.value else a)
            (if d.name = k then some d.value else none) from rfl, ih]
    cases lastDeclValue k ds with
    | some v => rfl
    | none => by_cases hdk : d.name = k <;> simp [hdk]

lemma declsFold_apply (k : String) :
    ∀ (ds : List Declaration) (m : PropertyMap),
      (ds.foldl (fun vs d => vs.insert d.name d.value) m) k
        = match lastDeclValue k ds with
          | some v => some v
          | none => m k := by
  intro ds
  induction ds with
  | nil => intro m; rfl
  | cons d ds ih =>
    intro m
    rw [List.foldl_cons, ih,
      show lastDeclValue k (d :: ds)
        = ds.foldl (fun a d => if d.name = k then some d.value else a)
            (if d.name = k then some d.value else none) from rfl,
      lastDeclValue_foldl_acc]
    cases lastDeclValue k ds with
    | some v => rfl
    | none =>
      show (if k = d.name then some d.value else m k)
        = match (if d.name = k then some d.value else none) with
          | some v => some v
          | none => m k
      by_cases hdk : d.name = k
      · rw [if_pos hdk, if_pos hdk.symm]
      · rw [if_neg hdk, if_neg (fun hc => hdk hc.symm)]

lemma rulesLast_foldl_acc (k : String) :
    ∀ (rs : List MatchedRule) (acc : Option Value),
      rs.foldl (cascadeStep k) acc
        = match rulesLast k rs with
          | some v => some v
          | none => acc := by
  intro rs
  induction rs with
  | nil => intro acc; rfl
  | cons r rs ih =>
    intro acc
    rw [List.foldl_cons, ih,
      show rulesLast k (r :: rs) = rs.foldl (cascadeStep k) (cascadeStep k none r) from rfl,
      ih]
    cases rulesLast k rs with
    | some v => rfl
    | none =>
      show cascadeStep k acc r
        = match cascadeStep k none r with
          | some v => some v
          | none => acc
      unfold cascadeStep
      cases lastDeclValue k r.2.declarations <;> rfl

lemma rulesFold_apply (k : String) :
    ∀ (rs : List MatchedRule) (m : PropertyMap),
      (rs.foldl
        (fun values r =>
          r.2.declarations.foldl (fun vs d => vs.insert d.name d.value) values)
        m) k
        = match rulesLast k rs with
          | some v => some v
          | none => m k := by
  intro rs
  induction rs with
  | nil => intro m; rfl
  | cons r rs ih =>
    intro m
    rw [List.foldl_cons, ih,
      show rulesLast k (r :: rs) = rs.foldl (cascadeStep k) (cascadeStep k none r) from rfl,
      rulesLast_foldl_acc, declsFold_apply]
    cases rulesLast k rs with
    | some v => rfl
    | none =>
      show (match lastDeclValue k r.2.declarations with
            | some v => some v
            | none => m k)
        = match cascadeStep k none r with
          | some v => some v
          | none => m k
      unfold cascadeStep
      cases lastDeclValue k r.2.declarations <;> rfl

lemma getLast?_cons_elim {α : Type} (a : α) (l : List α) :
    (a :: l).getLast? = match l.getLast? with
      | some x => some x
      | none => some a := by
  cases l with
  | nil => rfl
  | cons b t =>
    rw [List.getLast?_cons_cons]
    cases hl : (b :: t).getLast? with
    | none =>
      rw [List.getLast?_eq_none_iff] at hl
      cases hl
    | some x => rfl

/-- The cascade fold keeps the latest hit: it returns the last declaration
for `k` of the last rule in the list that carries one. -/
lemma rulesLast_eq_getLast? (k : String) :
    ∀ (rs : List MatchedRule),
      rulesLast k rs
        = match (rs.filter
            (fun r => (lastDeclValue k r.2.declarations).isSome)).getLast? with
          | some r => lastDeclValue k r.2.declarations
          | none => none := by
  have key : ∀ (rs : List MatchedRule) (acc : Option Value),
      rs.foldl (cascadeStep k) acc
        = match (rs.filter
            (fun r => (lastDeclValue k r.2.declarations).isSome)).getLast? with
          | some r => lastDeclValue k r.2.declarations
          | none => acc := by
    intro rs
    induction rs with
    | nil => intro acc; rfl
    | cons r rs ih =>
      intro acc
      rw [List.foldl_cons, ih, List.filter_cons]
      cases hg : lastDeclValue k r.2.declarations with
      | some v =>
        rw [if_pos (show (some v).isSome = true from rfl)]
        rw [getLast?_cons_elim]
        cases hl : (rs.filter
            (fun r => (lastDeclValue k r.2.declarations).isSome)).getLast? with
        | some x => rfl
        | none =>
          show cascadeStep k acc r = lastDeclValue k r.2.declarations
          unfold cascadeStep
          rw [hg]
      | none =>
        have hstep : cascadeStep k acc r = acc := by
          unfold cascadeStep
          rw [hg]
        rw [if_neg (by simp), hstep]
  intro rs
  exact key rs none

lemma hasDecl_eq_isSome (r : Rule) (k : String) :
    r.hasDecl k = (lastDeclValue k r.declarations).isSome := by
  unfold Rule.hasDecl
  induction r.declarations with
  | nil => rfl
  | cons d ds ih =>
    rw [List.any_cons, ih,
      show lastDeclValue k (d :: ds)
        = ds.foldl (fun a d => if d.name = k then some d.value else a)
            (if d.name = k then some d.value else none) from rfl,
      lastDeclValue_foldl_acc]
    cases lastDeclValue k ds with
    | some v => simp
    | none =>
      by_cases hdk : d.name = k
      · simp [hdk]
      · simp [hdk]

lemma enumLE_refl' (p : ℕ × MatchedRule) :
    List.enumLE (fun a b : MatchedRule => specLe a.1 b.1) p p = true := by
  simp [List.enumLE, specLe_refl]

lemma beats_enumLE (q p : ℕ × MatchedRule) (h : beats q p = true) :
    List.enumLE (fun a b : MatchedRule => specLe a.1 b.1) q p = true := by
  unfold beats at h
  rw [Bool.or_eq_true] at h
  rcases h with h | h
  · rw [Bool.and_eq_true] at h
    obtain ⟨h1, h2⟩ := h
    rw [Bool.not_eq_true'] at h2
    simp [List.enumLE, h1, h2]
  · rw [Bool.and_eq_true, beq_iff_eq] at h
    obtain ⟨h1, h2⟩ := h
    rw [decide_eq_true_eq] at h2
    simp [List.enumLE, h1, specLe_refl, Nat.le_of_lt h2]

lemma not_beats_enumLE (q p : ℕ × MatchedRule) (h : beats q p = false) :
    List.enumLE (fun a b : MatchedRule => specLe a.1 b.1) p q = true := by
  by_cases hpq : specLe p.2.1 q.2.1 = true
  · by_cases hqp : specLe q.2.1 p.2.1 = true
    · have heq : q.2.1 = p.2.1 := specLe_antisymm _ _ hqp hpq
      have h2 : (q.2.1 == p.2.1 && decide (q.1 < p.1)) = false := by
        unfold beats at h
        exact (Bool.or_eq_false_iff.mp h).2
      rw [heq, beq_self_eq_true, Bool.true_and, decide_eq_false_iff_not] at h2
      simp [List.enumLE, hpq, hqp, Nat.le_of_not_lt h2]
    · simp [List.enumLE, hpq, hqp]
  · exfalso
    have hpqf : specLe p.2.1 q.2.1 = false := by
      rw [← Bool.not_eq_true]
      exact hpq
    have hqp : specLe q.2.1 p.2.1 = true := by
      have htot := specLe_total q.2.1 p.2.1
      rw [Bool.or_eq_true] at htot
      rcases htot with h' | h'
      · exact h'
      · exact absurd h' hpq
    have hb : beats q p = true := by
      unfold beats
      rw [Bool.or_eq_true]
      left
      rw [Bool.and_eq_true, Bool.not_eq_true']
      exact ⟨hqp, hpqf⟩
    rw [h] at hb
    cases hb

lemma foldBeats_spec :
    ∀ (l : List (ℕ × MatchedRule)) (q : ℕ × MatchedRule),
      ∃ w, l.foldl
          (fun acc p =>
            match acc with
            | none => some p
            | some q' => if beats q' p then some p else some q')
          (some q) = some w
        ∧ (w = q ∨ w ∈ l)
        ∧ List.enumLE (fun a b : MatchedRule => specLe a.1 b.1) q w = true
        ∧ ∀ y ∈ l, List.enumLE (fun a b : MatchedRule => specLe a.1 b.1) y w = true := by
  intro l
  have htrans : ∀ (a b c : ℕ × MatchedRule),
      List.enumLE (fun x y : MatchedRule => specLe x.1 y.1) a b = true →
      List.enumLE (fun x y : MatchedRule => specLe x.1 y.1) b c = true →
      List.enumLE (fun x y : MatchedRule => specLe x.1 y.1) a c = true :=
    fun a b c => List.enumLE_trans
      (fun x y z hxy hyz => specLe_trans x.1 y.1 z.1 hxy hyz) a b c
  induction l with
  | nil =>
    intro q
    exact ⟨q, rfl, Or.inl rfl, enumLE_refl' q, by intro y hy; cases hy⟩
  | cons p l ih =>
    intro q
    rw [List.foldl_cons]
    by_cases hb : beats q p = true
    · obtain ⟨w, hw, hmem, hle, hall⟩ := ih p
      refine ⟨w, ?_, ?_, ?_, ?_⟩
      · rw [show (match some q with
            | none => some p
            | some q' => if beats q' p then some p else some q') = some p by
            dsimp only; rw [hb]; rfl]
        exact hw
      · rcases hmem with rfl | hmem'
        · exact Or.inr (List.mem_cons_self w l)
        · exact Or.inr (List.mem_cons_of_mem p hmem')
      · exact htrans q p w (beats_enumLE q p hb) hle
      · intro y hy
        rcases List.mem_cons.mp hy with rfl | hy'
        · exact hle
        · exact hall y hy'
    · rw [Bool.not_eq_true] at hb
      obtain ⟨w, hw, hmem, hle, hall⟩ := ih q
      refine ⟨w, ?_, ?_, ?_, ?_⟩
      · rw [show (match some q with
            | none => some p
            | some q' => if beats q' p then some p else some q') = some q by
            dsimp only; rw [hb]; rfl]
        exact hw
      · rcases hmem with rfl | hmem'
        · exact Or.inl rfl
        · exact Or.inr (List.mem_cons_of_mem p hmem')
      · exact hle
      · intro y hy
        rcases List.mem_cons.mp hy with rfl | hy'
        · exact htrans y q w (not_beats_enumLE q y hb) hle
        · exact hall y hy'

lemma getLast?_sorted_max {α : Type} (le : α → α → Bool)
    (hrefl : ∀ x, le x x = true) :
    ∀ (l : List α), l.Pairwise (fun a b => le a b = true) →
      ∀ w, l.getLast? = some w → ∀ y ∈ l, le y w = true := by
  intro l
  induction l with
  | nil => intro _ w hw; cases hw
  | cons a l ih =>
    intro hp w hw y hy
    rw [List.pairwise_cons] at hp
    cases l with
    | nil =>
      rcases List.mem_cons.mp hy with rfl | hy'
      · have h1 : some y = some w := by rw [← hw]; rfl
        injection h1 with h1
        rw [← h1]
        exact hrefl y
      · cases hy'
    | cons b t =>
      rw [List.getLast?_cons_cons] at hw
      rcases List.mem_cons.mp hy with rfl | hy'
      · have hwmem : w ∈ b :: t := by
          obtain ⟨ys, hys⟩ := List.getLast?_eq_some_iff.mp hw
          rw [hys]
          exact List.mem_append_right ys (List.mem_cons_self w [])
        exact hp.1 w hwmem
      · exact ih hp.2 w hw y hy'

lemma enumLE_both_fst_eq (a b : ℕ × MatchedRule)
    (h1 : List.enumLE (fun x y : MatchedRule => specLe x.1 y.1) a b = true)
    (h2 : List.enumLE (fun x y : MatchedRule => specLe x.1 y.1) b a = true) :
    a.1 = b.1 := by
  unfold List.enumLE at h1 h2
  by_cases hab : specLe a.2.1 b.2.1 = true
  · by_cases hba : specLe b.2.1 a.2.1 = true
    · rw [if_pos hab, if_pos hba, decide_eq_true_eq] at h1
      rw [if_pos hba, if_pos hab, decide_eq_true_eq] at h2
      omega
    · rw [if_neg hba] at h2
      cases h2
  · rw [if_neg hab] at h1
    cases h1

lemma enum_fst_eq_ext (matched : List MatchedRule) (a b : ℕ × MatchedRule)
    (ha : a ∈ matched.enum) (hb : b ∈ matched.enum) (hfst : a.1 = b.1) : a = b := by
  rw [List.mem_enum_iff_getElem?] at ha hb
  rw [hfst] at ha
  rw [ha] at hb
  injection hb with hb
  cases a
  cases b
  simp only at hfst hb
  rw [hfst, hb]

lemma sorted_getLast?_eq_cascadeWinner (k : String) (matched : List MatchedRule) :
    ((matched.enum.mergeSort
        (List.enumLE (fun a b : MatchedRule => specLe a.1 b.1))).filter
          (fun p => p.2.2.hasDecl k)).getLast?
      = cascadeWinner k matched := by
  have htrans : ∀ a b c : MatchedRule,
      specLe a.1 b.1 = true → specLe b.1 c.1 = true → specLe a.1 c.1 = true :=
    fun a b c hab hbc => specLe_trans a.1 b.1 c.1 hab hbc
  have htotal : ∀ a b : MatchedRule, (specLe a.1 b.1 || specLe b.1 a.1) = true :=
    fun a b => specLe_total a.1 b.1
  have hperm : ((matched.enum.mergeSort
      (List.enumLE (fun a b : MatchedRule => specLe a.1 b.1))).filter
        (fun p => p.2.2.hasDecl k)).Perm
      (matched.enum.filter (fun p => p.2.2.hasDecl k)) :=
    (List.mergeSort_perm matched.enum _).filter _
  have hsorted : ((matched.enum.mergeSort
      (List.enumLE (fun a b : MatchedRule => specLe a.1 b.1))).filter
        (fun p => p.2.2.hasDecl k)).Pairwise
      (fun a b => List.enumLE (fun x y : MatchedRule => specLe x.1 y.1) a b = true) :=
    (List.sorted_mergeSort (List.enumLE_trans htrans) (List.enumLE_total htotal)
      matched.enum).filter _
  cases hE : matched.enum.filter (fun p => p.2.2.hasDecl k) with
  | nil =>
    have hS : (matched.enum.mergeSort
        (List.enumLE (fun a b : MatchedRule => specLe a.1 b.1))).filter
          (fun p => p.2.2.hasDecl k) = [] := (hE ▸ hperm).eq_nil
    rw [hS, show cascadeWinner k matched
        = (matched.enum.filter (fun p => p.2.2.hasDecl k)).foldl
            (fun acc p =>
              match acc with
              | none => some p
              | some q => if beats q p then some p else some q)
            none from rfl, hE]
    rfl
  | cons p rest =>
    obtain ⟨w2, hw2, hmem2, hle2, hall2⟩ := foldBeats_spec rest p
    have hwinner : cascadeWinner k matched = some w2 := by
      rw [show cascadeWinner k matched
          = (matched.enum.filter (fun p => p.2.2.hasDecl k)).foldl
              (fun acc p =>
                match acc with
                | none => some p
                | some q => if beats q p then some p else some q)
              none from rfl, hE, List.foldl_cons]
      exact hw2
    have hw2E : w2 ∈ matched.enum.filter (fun p => p.2.2.hasDecl k) := by
      rw [hE]
      rcases hmem2 with rfl | hmem2'
      · exact List.mem_cons_self w2 rest
      · exact List.mem_cons_of_mem p hmem2'
    have hmax2 : ∀ y ∈ matched.enum.filter (fun p => p.2.2.hasDecl k),
        List.enumLE (fun a b : MatchedRule => specLe a.1 b.1) y w2 = true := by
      intro y hy
      rw [hE] at hy
      rcases List.mem_cons.mp hy with rfl | hy'
      · exact hle2
      · exact hall2 y hy'
    cases hS : ((matched.enum.mergeSort
        (List.enumLE (fun a b : MatchedRule => specLe a.1 b.1))).filter
          (fun p => p.2.2.hasDecl k)).getLast? with
    | none =>
      rw [List.getLast?_eq_none_iff] at hS
      rw [hS] at hperm
      have := hperm.length_eq
      rw [hE] at this
      cases this
    | some w1 =>
      have hw1S : w1 ∈ (matched.enum.mergeSort
          (List.enumLE (fun a b : MatchedRule => specLe a.1 b.1))).filter
            (fun p => p.2.2.hasDecl k) := by
        obtain ⟨ys, hys⟩ := List.getLast?_eq_some_iff.mp hS
        rw [hys]
        exact List.mem_append_right ys (List.mem_cons_self w1 [])
      have hmax1 : ∀ y ∈ (matched.enum.mergeSort
          (List.enumLE (fun a b : MatchedRule => specLe a.1 b.1))).filter
            (fun p => p.2.2.hasDecl k),
          List.enumLE (fun a b : MatchedRule => specLe a.1 b.1) y w1 = true :=
        getLast?_sorted_max _ enumLE_refl' _ hsorted w1 hS
      have h12 : List.enumLE (fun a b : MatchedRule => specLe a.1 b.1) w1 w2 = true :=
        hmax2 w1 (hperm.mem_iff.mp hw1S)
      have h21 : List.enumLE (fun a b : MatchedRule => specLe a.1 b.1) w2 w1 = true :=
        hmax1 w2 (hperm.mem_iff.mpr hw2E)
      have hfst : w1.1 = w2.1 := enumLE_both_fst_eq w1 w2 h12 h21
      have hw1enum : w1 ∈ matched.enum :=
        List.mem_of_mem_filter (hperm.mem_iff.mp hw1S)
      have hw2enum : w2 ∈ matched.enum := List.mem_of_mem_filter hw2E
      rw [hwinner, enum_fst_eq_ext matched w1 w2 hw1enum hw2enum hfst]

lemma specified_values_eq_cascade (elem : ElementData) (stylesheet : Stylesheet)
    (k : String) :
    specified_values elem stylesheet k
      = cascadeValue k (matching_rules elem stylesheet) := by
  have hfold :
      specified_values elem stylesheet k
        = match rulesLast k ((matching_rules elem stylesheet).mergeSort
            (fun a b => specLe a.1 b.1)) with
          | some v => some v
          | none => PropertyMap.empty k :=
    rulesFold_apply k _ PropertyMap.empty
  have h1 :
      rulesLast k ((matching_rules elem stylesheet).mergeSort
          (fun a b => specLe a.1 b.1))
        = match (((matching_rules elem stylesheet).mergeSort
            (fun a b => specLe a.1 b.1)).filter
              (fun r => (lastDeclValue k r.2.declarations).isSome)).getLast? with
          | some r => lastDeclValue k r.2.declarations
          | none => none :=
    rulesLast_eq_getLast? k _
  have h2 : (((matching_rules elem stylesheet).mergeSort
      (fun a b => specLe a.1 b.1)).filter
        (fun r => (lastDeclValue k r.2.declarations).isSome))
      = (((matching_rules elem stylesheet).mergeSort
          (fun a b => specLe a.1 b.1)).filter (fun r : MatchedRule => r.2.hasDecl k)) :=
    List.filter_congr (fun r _ => (hasDecl_eq_isSome r.2 k).symm)
  have h3 : ((matching_rules elem stylesheet).mergeSort (fun a b => specLe a.1 b.1))
      = ((matching_rules elem stylesheet).enum.mergeSort
          (List.enumLE (fun a b : MatchedRule => specLe a.1 b.1))).map (fun x => x.2) :=
    List.mergeSort_enum.symm
  have h4 : (((matching_rules elem stylesheet).enum.mergeSort
      (List.enumLE (fun a b : MatchedRule => specLe a.1 b.1))).map (fun x => x.2)).filter
        (fun r : MatchedRule => r.2.hasDecl k)
      = (((matching_rules elem stylesheet).enum.mergeSort
          (List.enumLE (fun a b : MatchedRule => specLe a.1 b.1))).filter
            (fun p => p.2.2.hasDecl k)).map (fun x => x.2) :=
    List.filter_map (fun x : ℕ × MatchedRule => x.2) _
  rw [hfold, h1, h2, h3, h4, List.getLast?_map, sorted_getLast?_eq_cascadeWinner]
  unfold cascadeValue
  cases hcw : cascadeWinner k (matching_rules elem stylesheet) with
  | none => rfl
  | some w =>
    show (match lastDeclValue k w.2.2.declarations with
          | some v => some v
          | none => PropertyMap.empty k)
        = (some w).bind (fun p => lastDeclValue k p.2.2.declarations)
    cases hlv : lastDeclValue k w.2.2.declarations with
    | none =>
      rw [show (some w).bind (fun p => lastDeclValue k p.2.2.declarations)
          = lastDeclValue k w.2.2.declarations from rfl, hlv]
      rfl
    | some v =>
      rw [show (some w).bind (fun p => lastDeclValue k p.2.2.declarations)
          = lastDeclValue k w.2.2.declarations from rfl, hlv]

/-- C1: Cascade correctness of specified_values.  The stable ascending
sort by specificity followed by last-write-wins insertion means that, for
each property, the final value is the last declaration of that property
inside the matched rule of highest specificity — among equal
specificities, the latest rule in stylesheet order (`cascadeValue`, the
winner computed directly from the spec's words).  In particular
`p {color:red;}` then `.foo {color:blue;}` on `<p class="foo">` gives
blue, and `p{color:red;} p{color:blue;}` on `<p>` gives blue. -/
theorem C1_cascade_correctness :
    (∀ (elem : ElementData) (stylesheet : Stylesheet) (k : String),
      specified_values elem stylesheet k
        = cascadeValue k (matching_rules elem stylesheet)) ∧
    specified_values ⟨"p", [("class", "foo")]⟩ sheetTagThenClass "color"
      = some (.Keyword "blue") ∧
    specified_values ⟨"p", []⟩ sheetTagTwice "color" = some (.Keyword "blue") := by
  refine ⟨specified_values_eq_cascade, ?_, ?_⟩
  · rw [specified_values_eq_cascade]
    rfl
  · rw [specified_values_eq_cascade]
    rfl
